import Mathlib

/-!
Shallow embedding of the reMarkable `.rm` stroke-file decoder of this
repository (Go packages `rm` — file with `ParseV6` and friends — and
`rmconvert` — file with `ParseRM`, `parseStrokeData`, `tryParseStroke`),
together with theorems settling the frozen claims about it.

Byte buffers are `List Nat` (each entry a byte value 0–255; encoders
produced in this file only emit values < 256).  A Go `bytes.Reader` that
is only ever advanced is modelled as the list of remaining bytes; the
`rmconvert` reader, which is also `Seek`-ed, is modelled as a buffer plus
a position.  Go `float32`/`float64` values are modelled exactly: a bit
pattern decodes to a rational number (or an infinity or NaN marker), and
the float operations the source performs (multiplication, division,
comparisons, integer conversion) are defined by IEEE-754
round-to-nearest-even on rationals.
-/

attribute [local semireducible] Rat.mul Rat.add Rat.sub Rat.inv

/-- Decidable equality of `Except` results (not derived in core). -/
instance [DecidableEq ε] [DecidableEq α] : DecidableEq (Except ε α) := fun x y =>
  match x, y with
  | .ok a, .ok b =>
    if h : a = b then .isTrue (by rw [h]) else .isFalse (by intro hc; cases hc; exact h rfl)
  | .error a, .error b =>
    if h : a = b then .isTrue (by rw [h]) else .isFalse (by intro hc; cases hc; exact h rfl)
  | .ok _, .error _ => .isFalse (by intro hc; cases hc)
  | .error _, .ok _ => .isFalse (by intro hc; cases hc)

/-- Error outcomes of Go read operations, as the decoder distinguishes
them: `eof` is `io.EOF` (no byte was available), `unexpectedEOF` is
`io.ErrUnexpectedEOF` (a multi-byte read was cut short), `errMsg` is any
error built with `fmt.Errorf`. -/
inductive GoErr where
  | eof
  | unexpectedEOF
  | errMsg (s : String)
deriving DecidableEq, Repr

/-- Whether an `Except` is a success. -/
def exceptIsOk : Except GoErr α → Bool
  | .ok _ => true
  | .error _ => false

/-- Little-endian value of a byte list (first byte least significant),
as `binary.LittleEndian` reads it. -/
def leNat (bs : List Nat) : Nat :=
  bs.foldr (fun b acc => b + 256 * acc) 0

/-- Little-endian 4-byte encoding of a value below `2^32`. -/
def le4 (v : Nat) : List Nat :=
  [v % 256, v / 256 % 256, v / 2 ^ 16 % 256, v / 2 ^ 24 % 256]

/-- Little-endian 8-byte encoding of a value below `2^64`. -/
def le8 (v : Nat) : List Nat :=
  [v % 256, v / 256 % 256, v / 2 ^ 16 % 256, v / 2 ^ 24 % 256,
   v / 2 ^ 32 % 256, v / 2 ^ 40 % 256, v / 2 ^ 48 % 256, v / 2 ^ 56 % 256]

/-- `io.ReadFull` of `n` bytes from a reader holding the remaining bytes
`r`: `io.EOF` when nothing is available (and `n > 0`), `io.ErrUnexpectedEOF`
when the read is cut short, otherwise the bytes and the rest.  This is
also the read `binary.Read` performs for a fixed-size value. -/
def readFull (n : Nat) (r : List Nat) : Except GoErr (List Nat × List Nat) :=
  if r.length < n then
    if r.isEmpty then .error .eof else .error .unexpectedEOF
  else .ok (r.take n, r.drop n)

/-- `binary.Read` of a `uint8`. -/
def readU8 (r : List Nat) : Except GoErr (Nat × List Nat) :=
  match readFull 1 r with
  | .error e => .error e
  | .ok (bs, r) => .ok (leNat bs, r)

/-- `binary.Read` of a little-endian `uint16`. -/
def readU16 (r : List Nat) : Except GoErr (Nat × List Nat) :=
  match readFull 2 r with
  | .error e => .error e
  | .ok (bs, r) => .ok (leNat bs, r)

/-- `binary.Read` of a little-endian `uint32` (also used for the bit
pattern of a `float32`). -/
def readU32 (r : List Nat) : Except GoErr (Nat × List Nat) :=
  match readFull 4 r with
  | .error e => .error e
  | .ok (bs, r) => .ok (leNat bs, r)

/-- `binary.Read` of a little-endian `uint64` (also used for the bit
pattern of a `float64`). -/
def readU64 (r : List Nat) : Except GoErr (Nat × List Nat) :=
  match readFull 8 r with
  | .error e => .error e
  | .ok (bs, r) => .ok (leNat bs, r)

/-- Value of an IEEE-754 binary32 datum: an exact rational for finite
values (the sign of a zero is not tracked; it is irrelevant to every
operation the source performs), or an infinity, or NaN (payload not
tracked). -/
inductive F32val where
  | finite (q : ℚ)
  | posInf
  | negInf
  | nan
deriving DecidableEq, Repr

/-- Decode an IEEE-754 binary32 bit pattern (sign bit 31, 8 exponent
bits, 23 mantissa bits, bias 127). -/
def bitsToF32 (n : Nat) : F32val :=
  let s : Nat := n / 2 ^ 31 % 2
  let e : Nat := n / 2 ^ 23 % 2 ^ 8
  let m : Nat := n % 2 ^ 23
  if e = 255 then
    if m = 0 then (if s = 1 then .negInf else .posInf) else .nan
  else
    let mag : ℚ :=
      if e = 0 then (m : ℚ) * (2 : ℚ) ^ (-149 : ℤ)
      else ((2 ^ 23 + m : ℕ) : ℚ) * (2 : ℚ) ^ ((e : ℤ) - 150)
    .finite (if s = 1 then -mag else mag)

/-- Value of an IEEE-754 binary64 datum (same conventions as `F32val`). -/
inductive F64val where
  | finite (q : ℚ)
  | posInf
  | negInf
  | nan
deriving DecidableEq, Repr

/-- Decode an IEEE-754 binary64 bit pattern (sign bit 63, 11 exponent
bits, 52 mantissa bits, bias 1023). -/
def bitsToF64 (n : Nat) : F64val :=
  let s : Nat := n / 2 ^ 63 % 2
  let e : Nat := n / 2 ^ 52 % 2 ^ 11
  let m : Nat := n % 2 ^ 52
  if e = 2047 then
    if m = 0 then (if s = 1 then .negInf else .posInf) else .nan
  else
    let mag : ℚ :=
      if e = 0 then (m : ℚ) * (2 : ℚ) ^ (-1074 : ℤ)
      else ((2 ^ 52 + m : ℕ) : ℚ) * (2 : ℚ) ^ ((e : ℤ) - 1075)
    .finite (if s = 1 then -mag else mag)

/-- Round a rational to the nearest integer, ties to even. -/
def rne (x : ℚ) : ℤ :=
  let f := ⌊x⌋
  let r := x - f
  if r < 1 / 2 then f
  else if 1 / 2 < r then f + 1
  else if f % 2 = 0 then f else f + 1

/-- Bit length of a natural number, with explicit recursion fuel (the
value itself is always enough fuel): `bitlen n` is the least `b` with
`n < 2 ^ b`. -/
def bitlenAux : Nat → Nat → Nat
  | 0, _ => 0
  | fuel + 1, n => if n = 0 then 0 else bitlenAux fuel (n / 2) + 1

/-- Bit length of a natural number. -/
def bitlen (n : Nat) : Nat := bitlenAux n n

/-- Whether `2 ^ e ≤ a` for a positive rational `a`, computed on the
numerator and denominator. -/
def pow2LE (e : ℤ) (a : ℚ) : Bool :=
  if 0 ≤ e then (a.den * 2 ^ e.toNat : ℤ) ≤ a.num
  else (a.den : ℤ) ≤ a.num * 2 ^ (-e).toNat

/-- `⌊log₂ a⌋` for a positive rational `a` (the unique `e` with
`2 ^ e ≤ a < 2 ^ (e + 1)`), computed from the bit lengths of numerator
and denominator. -/
def ratLog2 (a : ℚ) : ℤ :=
  let e0 : ℤ := (bitlen a.num.toNat : ℤ) - (bitlen a.den : ℤ)
  if pow2LE e0 a then e0 else e0 - 1

/-- Round a rational to the nearest IEEE-754 binary32 value
(round-to-nearest, ties-to-even; overflow to an infinity). -/
def roundF32 (q : ℚ) : F32val :=
  if q = 0 then .finite 0
  else
    let a := |q|
    let e : ℤ := max (ratLog2 a) (-126)
    let n : ℤ := rne (a * (2 : ℚ) ^ (23 - e))
    let v : ℚ := (n : ℚ) * (2 : ℚ) ^ (e - 23)
    if v < (2 : ℚ) ^ (128 : ℕ) then .finite (if q < 0 then -v else v)
    else if q < 0 then .negInf else .posInf

/-- Go `float32` multiplication. -/
def f32mul : F32val → F32val → F32val
  | .nan, _ => .nan
  | _, .nan => .nan
  | .finite a, .finite b => roundF32 (a * b)
  | .posInf, .posInf => .posInf
  | .posInf, .negInf => .negInf
  | .negInf, .posInf => .negInf
  | .negInf, .negInf => .posInf
  | .posInf, .finite b => if 0 < b then .posInf else if b < 0 then .negInf else .nan
  | .negInf, .finite b => if 0 < b then .negInf else if b < 0 then .posInf else .nan
  | .finite a, .posInf => if 0 < a then .posInf else if a < 0 then .negInf else .nan
  | .finite a, .negInf => if 0 < a then .negInf else if a < 0 then .posInf else .nan

/-- Go `float32` division (division by a zero of either sign is modelled
as division by +0, the only case the source can produce from the constant
divisor it uses). -/
def f32div : F32val → F32val → F32val
  | .nan, _ => .nan
  | _, .nan => .nan
  | .finite a, .finite b =>
      if b = 0 then (if a = 0 then .nan else if 0 < a then .posInf else .negInf)
      else roundF32 (a / b)
  | .posInf, .finite b => if b < 0 then .negInf else .posInf
  | .negInf, .finite b => if b < 0 then .posInf else .negInf
  | .finite _, .posInf => .finite 0
  | .finite _, .negInf => .finite 0
  | .posInf, .posInf => .nan
  | .posInf, .negInf => .nan
  | .negInf, .posInf => .nan
  | .negInf, .negInf => .nan

/-- Go `<` between a `float32` and an exactly representable constant
(NaN compares false). -/
def f32ltQ : F32val → ℚ → Bool
  | .finite a, c => a < c
  | .negInf, _ => true
  | _, _ => false

/-- Go `>` between a `float32` and an exactly representable constant. -/
def f32gtQ : F32val → ℚ → Bool
  | .finite a, c => c < a
  | .posInf, _ => true
  | _, _ => false

/-- Go `>=` between a `float32` and an exactly representable constant. -/
def f32geQ : F32val → ℚ → Bool
  | .finite a, c => c ≤ a
  | .posInf, _ => true
  | _, _ => false

/-- Go `<=` between a `float32` and an exactly representable constant. -/
def f32leQ : F32val → ℚ → Bool
  | .finite a, c => a ≤ c
  | .negInf, _ => true
  | _, _ => false

/-- Truncation of a rational toward zero (the integer part Go keeps in a
float-to-integer conversion). -/
def truncQ (q : ℚ) : ℤ :=
  if 0 ≤ q then ⌊q⌋ else -⌊-q⌋

/-- Go conversion `uint16(f)` for `f : float32`.  Go truncates toward
zero; for values outside the target range the Go compiler converts
through a wide integer and keeps the low 16 bits, which the modulus
models.  NaN and infinities (implementation-dependent in Go) are mapped
to 0; no theorem below depends on them. -/
def f32ToUint16 : F32val → Nat
  | .finite q => ((truncQ q) % 65536).toNat
  | _ => 0

/-- Go conversion `uint8(f)` for `f : float32` (same conventions as
`f32ToUint16`). -/
def f32ToUint8 : F32val → Nat
  | .finite q => ((truncQ q) % 256).toNat
  | _ => 0

/-- Go `float64` multiplication by the literal `2.0`: exact except for
overflow to an infinity. -/
def f64Double : F64val → F64val
  | .finite q =>
      if |2 * q| < (2 : ℚ) ^ (1024 : ℕ) then .finite (2 * q)
      else if q < 0 then .negInf else .posInf
  | .posInf => .posInf
  | .negInf => .negInf
  | .nan => .nan

namespace rm

/-! Embedding of the `rm` package V6 decoder (the source file defining
`ParseV6`, `parseV6Blocks`, `parseV6Block`, `extractLinesFromV6Blocks`,
`parseSceneItemBlock`, `parseLineData`, `parsePoint`, `convertV6Line`,
`mapV6Tool`, `mapV6Color`, `readVarint`, `readCrdtId`, `expectTag`).
The `bytes.Reader` is only advanced here, so it is modelled as the list
of remaining bytes. -/

/-- Block-type constant `BLOCK_SCENE_ITEM`. -/
def BLOCK_SCENE_ITEM : Nat := 5

/-- Tag-type constant `TAG_BYTE1`. -/
def TAG_BYTE1 : Nat := 1

/-- Tag-type constant `TAG_BYTE4`. -/
def TAG_BYTE4 : Nat := 4

/-- Tag-type constant `TAG_BYTE8`. -/
def TAG_BYTE8 : Nat := 8

/-- Tag-type constant `TAG_LENGTH4`. -/
def TAG_LENGTH4 : Nat := 12

/-- Tag-type constant `TAG_ID`. -/
def TAG_ID : Nat := 15

/-- Item-type constant `ITEM_TYPE_LINE`. -/
def ITEM_TYPE_LINE : Nat := 3

/-- Go `int32(u)` for a `uint32` value `u`. -/
def toInt32 (n : Nat) : Int :=
  if n < 2 ^ 31 then (n : Int) else (n : Int) - 2 ^ 32

/-- `V6Block`: a parsed tagged block.  All byte-sized fields are `Nat`. -/
structure V6Block where
  blockType : Nat
  minVersion : Nat
  currentVersion : Nat
  size : Nat
  data : List Nat
deriving DecidableEq, Repr

/-- `V6Point` (version-2 representation).  `x` and `y` hold the raw
`float32` bit patterns; the other fields are the integer values. -/
structure V6Point where
  x : Nat
  y : Nat
  speed : Nat
  width : Nat
  direction : Nat
  pressure : Nat
deriving DecidableEq, Repr

/-- `V6Line`.  `thicknessScale` holds the raw `float64` bit pattern and
`startingLength` the raw `float32` bit pattern. -/
structure V6Line where
  color : Int
  tool : Int
  points : List V6Point
  thicknessScale : Nat
  startingLength : Nat
deriving DecidableEq, Repr

/-- `V6CrdtId`. -/
structure V6CrdtId where
  part1 : Nat
  part2 : Nat
deriving DecidableEq, Repr

/-- The `rm` package `BrushType` enumeration (declared in the package
core file, which is not under `src/`; the constructors are the ones the
sources reference). -/
inductive BrushType where
  | fineliner | tiltPencil | ballPoint | marker | highlighter
  | eraser | eraseArea
  | finelinerV5 | tiltPencilV5 | ballPointV5 | markerV5 | highlighterV5
deriving DecidableEq, Repr

/-- The `rm` package `BrushColor` enumeration. -/
inductive BrushColor where
  | black | grey | white
deriving DecidableEq, Repr

/-- The `rm` package `Version` tag. -/
inductive Version where
  | v3 | v5 | v6
deriving DecidableEq, Repr

/-- The `rm` package canonical `Point` (all fields `float32` in Go). -/
structure Point where
  x : F32val
  y : F32val
  speed : F32val
  direction : F32val
  width : F32val
  pressure : F32val
deriving DecidableEq, Repr

/-- The `rm` package canonical `Line`; `brushSize` is a `float64`-based
value in Go. -/
structure Line where
  brushType : BrushType
  brushColor : BrushColor
  brushSize : F64val
  points : List Point
deriving DecidableEq, Repr

/-- The `rm` package `Layer`. -/
structure Layer where
  lines : List Line
deriving DecidableEq, Repr

/-- The `rm` package document root `Rm`. -/
structure Rm where
  version : Version
  layers : List Layer
deriving DecidableEq, Repr

/-- Loop body of `readVarint`: `result` and `shift` are the accumulator
and current shift; the `uint64` accumulation wraps modulo `2^64` exactly
as Go's `result |= uint64(b&0x7F) << shift` does. -/
def readVarintAux (result shift : Nat) : List Nat → Except GoErr (Nat × List Nat)
  | [] => .error .eof
  | b :: rest =>
    let result : Nat := result ||| ((b &&& 127) <<< shift) % 2 ^ 64
    if b &&& 128 = 0 then .ok (result, rest)
    else
      let shift := shift + 7
      if 64 ≤ shift then .error (.errMsg "varint overflow")
      else readVarintAux result shift rest

/-- `readVarint`: base-128 little-endian-group varint with continuation
bit; the overflow check fires when `shift` reaches 64 after a
continuation byte. -/
def readVarint (r : List Nat) : Except GoErr (Nat × List Nat) :=
  readVarintAux 0 0 r

/-- `readCrdtId`: one `uint8` then one varint. -/
def readCrdtId (r : List Nat) : Except GoErr (V6CrdtId × List Nat) :=
  match readU8 r with
  | .error e => .error e
  | .ok (part1, r) =>
    match readVarint r with
    | .error e => .error e
    | .ok (part2, r) => .ok ({ part1 := part1, part2 := part2 }, r)

/-- `expectTag`: read a tag varint, split it into index (high bits) and
type (low 4 bits), and fail unless both match the expectation. -/
def expectTag (expectedIndex expectedType : Nat) (r : List Nat) :
    Except GoErr (Bool × List Nat) :=
  match readVarint r with
  | .error e => .error e
  | .ok (tagValue, r) =>
    let index : Nat := tagValue >>> 4
    let tagType : Nat := tagValue &&& 15
    if index ≠ expectedIndex ∨ tagType ≠ expectedType then
      .error (.errMsg "unexpected tag")
    else .ok (true, r)

/-- `parseV6Block`, instrumented: the second component records the sizes
of the allocations the Go code performs (`make([]byte, block.Size)`), in
order, whether or not the parse succeeds. -/
def parseV6BlockA (r : List Nat) : Except GoErr (V6Block × List Nat) × List Nat :=
  match readU32 r with
  | .error e => (.error e, [])
  | .ok (blockLength, r) =>
    match readU8 r with  -- unknown byte (should be 0)
    | .error e => (.error e, [])
    | .ok (_, r) =>
      match readU8 r with
      | .error e => (.error e, [])
      | .ok (minVersion, r) =>
        match readU8 r with
        | .error e => (.error e, [])
        | .ok (currentVersion, r) =>
          match readU8 r with
          | .error e => (.error e, [])
          | .ok (blockType, r) =>
            if 0 < blockLength then
              -- block.Data = make([]byte, block.Size), then io.ReadFull
              match readFull blockLength r with
              | .error e => (.error e, [blockLength])
              | .ok (d, r) =>
                (.ok ({ blockType := blockType, minVersion := minVersion,
                        currentVersion := currentVersion,
                        size := blockLength, data := d }, r), [blockLength])
            else
              (.ok ({ blockType := blockType, minVersion := minVersion,
                      currentVersion := currentVersion,
                      size := blockLength, data := [] }, r), [])

/-- `parseV6Block`: result component of the instrumented parser. -/
def parseV6Block (r : List Nat) : Except GoErr (V6Block × List Nat) :=
  (parseV6BlockA r).1

/-- Loop of `parseV6Blocks`: while bytes remain, parse a block; a bare
`io.EOF` ends the stream cleanly, any other error is returned (Go also
returns the partial slice beside the error, which the only caller
discards).  `fuel` bounds the iteration count; `parseV6Blocks` supplies
`r.length`, which suffices because every successful block consumes at
least its 8 header bytes (`parseV6Block_consumes`,
`parseV6BlocksLoop_fuel`). -/
def parseV6BlocksLoop : Nat → List V6Block → List Nat → Except GoErr (List V6Block)
  | 0, acc, _ => .ok acc
  | fuel + 1, acc, r =>
    if r.length = 0 then .ok acc
    else
      match parseV6Block r with
      | .error .eof => .ok acc
      | .error e => .error e
      | .ok (b, r) => parseV6BlocksLoop fuel (acc ++ [b]) r

/-- `parseV6Blocks`. -/
def parseV6Blocks (r : List Nat) : Except GoErr (List V6Block) :=
  parseV6BlocksLoop r.length [] r

/-- The `float32` value of the Go constant expression `2 * 3.14159`
(the untyped constant `6.28318` converted to `float32`). -/
def f32TwoPi : F32val := roundF32 (628318 / 100000 : ℚ)

/-- `parsePoint`: 14-byte packed layout unless the owning block's
version is 1, in which case four trailing `float32` fields are read and
re-quantized exactly as the Go conversions do. -/
def parsePoint (r : List Nat) (version : Nat) : Except GoErr (V6Point × List Nat) :=
  match readU32 r with
  | .error e => .error e
  | .ok (xbits, r) =>
    match readU32 r with
    | .error e => .error e
    | .ok (ybits, r) =>
      if version = 1 then
        match readU32 r with
        | .error e => .error e
        | .ok (speedBits, r) =>
          match readU32 r with
          | .error e => .error e
          | .ok (dirBits, r) =>
            match readU32 r with
            | .error e => .error e
            | .ok (widthBits, r) =>
              match readU32 r with
              | .error e => .error e
              | .ok (pressureBits, r) =>
                -- point.Speed = uint16(speed * 4), etc.
                .ok ({ x := xbits, y := ybits,
                       speed := f32ToUint16 (f32mul (bitsToF32 speedBits) (.finite 4)),
                       width := f32ToUint16 (f32mul (bitsToF32 widthBits) (.finite 4)),
                       direction := f32ToUint8 (f32div (f32mul (bitsToF32 dirBits) (.finite 255)) f32TwoPi),
                       pressure := f32ToUint8 (f32mul (bitsToF32 pressureBits) (.finite 255)) }, r)
      else
        match readU16 r with
        | .error e => .error e
        | .ok (speed, r) =>
          match readU16 r with
          | .error e => .error e
          | .ok (width, r) =>
            match readU8 r with
            | .error e => .error e
            | .ok (direction, r) =>
              match readU8 r with
              | .error e => .error e
              | .ok (pressure, r) =>
                .ok ({ x := xbits, y := ybits, speed := speed, width := width,
                       direction := direction, pressure := pressure }, r)

/-- The point-reading `for` loop of `parseLineData`: `numPoints`
iterations, each a `parsePoint` whose error aborts. -/
def pointsLoop (version : Nat) : Nat → List Nat → Except GoErr (List V6Point × List Nat)
  | 0, r => .ok ([], r)
  | n + 1, r =>
    match parsePoint r version with
    | .error e => .error e
    | .ok (p, r) =>
      match pointsLoop version n r with
      | .error e => .error e
      | .ok (ps, r) => .ok (p :: ps, r)

/-- `parseLineData`, instrumented: the second component records the
element counts of the allocations the Go code performs
(`make([]V6Point, numPoints)`), whether or not the parse succeeds. -/
def parseLineDataA (r : List Nat) (version : Nat) :
    Except GoErr (V6Line × List Nat) × List Nat :=
  match expectTag 1 TAG_BYTE4 r with
  | .error e => (.error e, [])
  | .ok (_, r) =>
    match readU32 r with
    | .error e => (.error e, [])
    | .ok (tool, r) =>
      match expectTag 2 TAG_BYTE4 r with
      | .error e => (.error e, [])
      | .ok (_, r) =>
        match readU32 r with
        | .error e => (.error e, [])
        | .ok (color, r) =>
          match expectTag 3 TAG_BYTE8 r with
          | .error e => (.error e, [])
          | .ok (_, r) =>
            match readU64 r with  -- thickness_scale (float64 bits)
            | .error e => (.error e, [])
            | .ok (thick, r) =>
              match expectTag 4 TAG_BYTE4 r with
              | .error e => (.error e, [])
              | .ok (_, r) =>
                match readU32 r with  -- starting_length (float32 bits)
                | .error e => (.error e, [])
                | .ok (start, r) =>
                  match expectTag 5 TAG_LENGTH4 r with
                  | .error e => (.error e, [])
                  | .ok (_, r) =>
                    match readU32 r with
                    | .error e => (.error e, [])
                    | .ok (pointsLen, r) =>
                      let pointSize : Nat := if version = 1 then 24 else 14
                      let numPoints : Nat := pointsLen / pointSize
                      -- line.Points = make([]V6Point, numPoints)
                      match pointsLoop version numPoints r with
                      | .error e => (.error e, [numPoints])
                      | .ok (ps, r) =>
                        (.ok ({ color := toInt32 color, tool := toInt32 tool,
                                points := ps, thicknessScale := thick,
                                startingLength := start }, r), [numPoints])

/-- `parseLineData`: result component of the instrumented parser.
Trailing tags (timestamp, move id) are not read; the Go code returns
after the points. -/
def parseLineData (r : List Nat) (version : Nat) : Except GoErr (V6Line × List Nat) :=
  (parseLineDataA r version).1

/-- The strict leading sequence of `parseSceneItemBlock`: four tagged
CRDT ids (indices 1–4) followed by the tagged `deleted_length` (index 5,
`TAG_BYTE4`), returning the deleted length and the remaining bytes. -/
def sceneItemPreamble (r : List Nat) : Except GoErr (Nat × List Nat) :=
  match expectTag 1 TAG_ID r with
  | .error e => .error e
  | .ok (_, r) =>
    match readCrdtId r with
    | .error e => .error e
    | .ok (_, r) =>
      match expectTag 2 TAG_ID r with
      | .error e => .error e
      | .ok (_, r) =>
        match readCrdtId r with
        | .error e => .error e
        | .ok (_, r) =>
          match expectTag 3 TAG_ID r with
          | .error e => .error e
          | .ok (_, r) =>
            match readCrdtId r with
            | .error e => .error e
            | .ok (_, r) =>
              match expectTag 4 TAG_ID r with
              | .error e => .error e
              | .ok (_, r) =>
                match readCrdtId r with
                | .error e => .error e
                | .ok (_, r) =>
                  match expectTag 5 TAG_BYTE4 r with
                  | .error e => .error e
                  | .ok (_, r) =>
                    match readU32 r with
                    | .error e => .error e
                    | .ok (deletedLength, r) => .ok (deletedLength, r)

/-- `parseSceneItemBlock`: preamble, tombstone check, optional value
subblock at index 6, item-type discriminator, line payload.  A failing
index-6 tag lookup is a skip (`nil, nil`), not an error. -/
def parseSceneItemBlock (data : List Nat) (blockVersion : Nat) :
    Except GoErr (Option V6Line) :=
  match sceneItemPreamble data with
  | .error e => .error e
  | .ok (deletedLength, r) =>
    if 0 < deletedLength then .ok none
    else if r.length = 0 then .ok none
    else
      match expectTag 6 TAG_LENGTH4 r with
      | .error _ => .ok none  -- no value subblock, skip
      | .ok (_, r) =>
        match readU32 r with  -- subblock length (read, not used)
        | .error e => .error e
        | .ok (_, r) =>
          match readU8 r with
          | .error e => .error e
          | .ok (itemType, r) =>
            if itemType ≠ ITEM_TYPE_LINE then .ok none
            else
              match parseLineData r blockVersion with
              | .error e => .error e
              | .ok (line, _) => .ok (some line)

/-- `extractLinesFromV6Blocks`: for each `BLOCK_SCENE_ITEM` block, keep
the parsed line when the parse returned one with no error; parse errors
and item-less results are silently skipped. -/
def extractLinesFromV6Blocks (blocks : List V6Block) : List V6Line :=
  blocks.filterMap fun block =>
    if block.blockType = BLOCK_SCENE_ITEM then
      match parseSceneItemBlock block.data block.currentVersion with
      | .ok (some line) => some line
      | _ => none
    else none

/-- `mapV6Tool`. -/
def mapV6Tool (tool : Int) : BrushType :=
  if tool = 0 ∨ tool = 12 then .ballPointV5
  else if tool = 1 ∨ tool = 14 then .tiltPencilV5
  else if tool = 2 ∨ tool = 15 then .ballPointV5
  else if tool = 3 ∨ tool = 16 then .markerV5
  else if tool = 4 ∨ tool = 17 then .finelinerV5
  else if tool = 5 ∨ tool = 18 then .highlighterV5
  else if tool = 6 then .eraser
  else if tool = 7 ∨ tool = 13 then .tiltPencilV5
  else if tool = 8 then .eraseArea
  else if tool = 21 then .ballPointV5
  else .ballPointV5

/-- `mapV6Color`. -/
def mapV6Color (color : Int) : BrushColor :=
  if color = 0 then .black
  else if color = 1 then .grey
  else if color = 2 then .white
  else .black

/-- `convertV6Line`: `BrushSize` is `ThicknessScale * 2.0` in `float64`;
the integer point fields convert to `float32` exactly (they are below
`2^16`). -/
def convertV6Line (v6line : V6Line) : Line :=
  { brushType := mapV6Tool v6line.tool,
    brushColor := mapV6Color v6line.color,
    brushSize := f64Double (bitsToF64 v6line.thicknessScale),
    points := v6line.points.map fun p =>
      { x := bitsToF32 p.x, y := bitsToF32 p.y,
        speed := .finite p.speed, direction := .finite p.direction,
        width := .finite p.width, pressure := .finite p.pressure } }

/-- `HeaderLen` (43; the `rm` package core file declaring it is not
under `src/`, but the V6 header literal below and the spec fix it). -/
def HeaderLen : Nat := 43

/-- The `HEADER_V6` literal of the source, as bytes. -/
def headerV6Bytes : List Nat :=
  "reMarkable .lines file, version=6          ".toList.map Char.toNat

/-- Modelled from the spec: the V3 dialect header literal (the `rm`
package core file declaring the three header constants is not under
`src/`; the spec mandates three 43-byte space-padded literals, one per
dialect, differing in the version digit). -/
def headerV3Bytes : List Nat :=
  "reMarkable .lines file, version=3          ".toList.map Char.toNat

/-- Modelled from the spec: the V5 dialect header literal (see
`headerV3Bytes`). -/
def headerV5Bytes : List Nat :=
  "reMarkable .lines file, version=5          ".toList.map Char.toNat

/-- `ParseV6`: exact 43-byte header match, block parse, line extraction,
conversion into the canonical document (a single layer; a `nil` lines
slice and an empty one are both the empty list here). -/
def ParseV6 (data : List Nat) : Except GoErr Rm :=
  if data.length < HeaderLen then .error (.errMsg "file too small")
  else if data.take HeaderLen ≠ headerV6Bytes then .error (.errMsg "not a v6 file")
  else
    match parseV6Blocks (data.drop HeaderLen) with
    | .error e => .error e
    | .ok blocks =>
      let lines := extractLinesFromV6Blocks blocks
      .ok { version := .v6, layers := [{ lines := lines.map convertV6Line }] }

end rm

namespace rmconvert

/-! Embedding of the `rmconvert` simplified parser (the source file
defining `ParseRM`, `parseStrokesSimplified`, `parseStrokeData`,
`tryParseStroke`).  Its `bytes.Reader` is both read and `Seek`-ed, so it
is modelled as the full buffer plus a position.  A failed `binary.Read`
leaves the reader at the end of the buffer (Go's `io.ReadFull` consumes
whatever was available). -/

/-- A `bytes.Reader`: buffer plus current position. -/
structure BReader where
  data : List Nat
  pos : Nat
deriving DecidableEq, Repr

/-- `r.Len()`: remaining bytes (0 when the position is past the end). -/
def BReader.len (r : BReader) : Nat := r.data.length - r.pos

/-- `io.ReadFull` of `n` bytes, returning the (possibly failed) result
together with the reader as the read leaves it. -/
def readFullP (n : Nat) (r : BReader) : Except GoErr (List Nat) × BReader :=
  if r.len < n then
    if r.len = 0 then (.error .eof, r)
    else (.error .unexpectedEOF, { r with pos := r.data.length })
  else (.ok ((r.data.drop r.pos).take n), { r with pos := r.pos + n })

/-- `binary.Read` of a little-endian `uint32` (also used for the bit
pattern of a `float32`). -/
def readU32P (r : BReader) : Except GoErr Nat × BReader :=
  match readFullP 4 r with
  | (.error e, r) => (.error e, r)
  | (.ok bs, r) => (.ok (leNat bs), r)

/-- The `rmconvert` `Point`: six `float32` fields, held as raw bit
patterns. -/
structure Point where
  x : Nat
  y : Nat
  speed : Nat
  direction : Nat
  width : Nat
  pressure : Nat
deriving DecidableEq, Repr

/-- The `rmconvert` `Stroke`: `tool` and `color` are Go `int` values
(converted from `uint32`), `width` the raw `float32` bit pattern. -/
structure Stroke where
  tool : Nat
  color : Nat
  width : Nat
  points : List Point
deriving DecidableEq, Repr

/-- The `rmconvert` `Page` (width and height are the constant device
dimensions). -/
structure Page where
  width : Nat
  height : Nat
  strokes : List Stroke
deriving DecidableEq, Repr

/-- The point loop of `tryParseStroke`: runs while `i < pointCount` and
at least 24 bytes remain; reads six `float32` fields (a failed read
breaks out, returning what was gathered); keeps the point only when its
coordinates lie in `[0, 2000] × [0, 3000]` (Go float comparisons). -/
def strokePointsLoop : Nat → BReader → List Point → List Point × BReader
  | 0, r, acc => (acc, r)
  | i + 1, r, acc =>
    if r.len < 24 then (acc, r)
    else
      match readU32P r with
      | (.error _, r) => (acc, r)
      | (.ok xb, r) =>
        match readU32P r with
        | (.error _, r) => (acc, r)
        | (.ok yb, r) =>
          match readU32P r with
          | (.error _, r) => (acc, r)
          | (.ok sb, r) =>
            match readU32P r with
            | (.error _, r) => (acc, r)
            | (.ok db, r) =>
              match readU32P r with
              | (.error _, r) => (acc, r)
              | (.ok wb, r) =>
                match readU32P r with
                | (.error _, r) => (acc, r)
                | (.ok pb, r) =>
                  let keep := f32geQ (bitsToF32 xb) 0 && f32leQ (bitsToF32 xb) 2000 &&
                              f32geQ (bitsToF32 yb) 0 && f32leQ (bitsToF32 yb) 3000
                  let acc := if keep then acc ++ [{ x := xb, y := yb, speed := sb,
                                                    direction := db, width := wb,
                                                    pressure := pb }] else acc
                  strokePointsLoop i r acc

/-- `tryParseStroke`: requires 20 bytes, reads tool, color, width and
point count, validates them, then gathers points.  On a validation
failure the reader stays where the reads left it (16 bytes past the
attempt's start). -/
def tryParseStroke (r : BReader) : Except GoErr Stroke × BReader :=
  if r.len < 20 then (.error (.errMsg "not enough data"), r)
  else
    match readU32P r with
    | (.error e, r) => (.error e, r)
    | (.ok tool, r) =>
      match readU32P r with
      | (.error e, r) => (.error e, r)
      | (.ok color, r) =>
        match readU32P r with
        | (.error e, r) => (.error e, r)
        | (.ok widthBits, r) =>
          match readU32P r with
          | (.error e, r) => (.error e, r)
          | (.ok pointCount, r) =>
            if 10 < tool ∨ 10 < color ∨ f32ltQ (bitsToF32 widthBits) 0 ∨
               f32gtQ (bitsToF32 widthBits) 100 ∨ pointCount = 0 ∨ 10000 < pointCount then
              (.error (.errMsg "invalid stroke parameters"), r)
            else
              let (points, r) := strokePointsLoop pointCount r []
              (.ok { tool := tool, color := color, width := widthBits,
                     points := points }, r)

/-- The scanning loop of `parseStrokeData`: while bytes remain, attempt
a stroke; on failure, `Seek(1, io.SeekCurrent)` past wherever the failed
attempt left the reader and retry; on success, keep the stroke when it
has points.  `fuel` bounds the iteration count; `parseStrokeData`
supplies the remaining length, which suffices because every iteration
strictly advances the position (`strokeLoop_fuel`). -/
def strokeLoop : Nat → BReader → List Stroke → List Stroke
  | 0, _, acc => acc
  | fuel + 1, r, acc =>
    if r.len = 0 then acc
    else
      match tryParseStroke r with
      | (.error _, r1) => strokeLoop fuel { r1 with pos := r1.pos + 1 } acc
      | (.ok stroke, r1) =>
        strokeLoop fuel r1 (if 0 < stroke.points.length then acc ++ [stroke] else acc)

/-- The scanning loop entered at a reader state, with the fuel the
remaining length supplies. -/
def strokeLoopN (r : BReader) (acc : List Stroke) : List Stroke :=
  strokeLoop r.len r acc

/-- `parseStrokeData` (via `parseStrokesSimplified`): scan the whole
buffer for stroke-like patterns.  The Go function's error result is
always `nil`; the strokes appended to the page are returned. -/
def parseStrokeData (data : List Nat) : List Stroke :=
  strokeLoopN { data := data, pos := 0 } []

/-- `rmHeaderSize` (43). -/
def rmHeaderSize : Nat := 43

/-- The `rmHeader` literal (33 bytes — note: not the full 43-byte padded
header). -/
def rmHeaderBytes : List Nat :=
  "reMarkable .lines file, version=6".toList.map Char.toNat

/-- `ParseRM`: read 43 header bytes, compare only their first 33 against
`rmHeader`, then scan the rest for strokes; a failure of the simplified
scan is only warned about, so after a header match the page is always
returned. -/
def ParseRM (data : List Nat) : Except GoErr Page :=
  match readFullP rmHeaderSize { data := data, pos := 0 } with
  | (.error e, _) => .error e
  | (.ok header, _) =>
    if header.take 33 = rmHeaderBytes then
      .ok { width := 1404, height := 1872,
            strokes := parseStrokeData (data.drop rmHeaderSize) }
    else .error (.errMsg "invalid header")

end rmconvert

/-! Concrete inputs used by the claim theorems below. -/

/-- A scene-item preamble whose `deleted_length` is 1: four tagged ids
(`0x1F`, `0x2F`, `0x3F`, `0x4F`, each followed by a 2-byte CRDT id),
then tag `0x54` (index 5, `TAG_BYTE4`) and the little-endian value 1. -/
def c9pre : List Nat := [31, 0, 5, 47, 0, 5, 63, 0, 5, 79, 0, 5, 84, 1, 0, 0, 0]

/-- A scene-item payload holding one line with one version-2 point:
the `c9pre` preamble with `deleted_length` 0, the index-6 subblock tag,
a subblock length, the line item type, and a line whose points subblock
declares 14 bytes. -/
def sceneLinePayload : List Nat :=
  [31, 0, 5, 47, 0, 5, 63, 0, 5, 79, 0, 5, 84, 0, 0, 0, 0] ++
  [108] ++ le4 44 ++ [3] ++
  ([20] ++ le4 4 ++ [36] ++ le4 0 ++ [56] ++ le8 0 ++ [68] ++ le4 0 ++
   [92] ++ le4 14 ++ List.replicate 14 0)

/-- A V6 stream: header, then a scene-item block whose payload `[255]`
is structurally corrupt (its tag varint hits end of data), then a valid
scene-item block holding one line. -/
def c2input : List Nat :=
  rm.headerV6Bytes ++ (le4 1 ++ [0, 1, 2, 5] ++ [255]) ++
  (le4 sceneLinePayload.length ++ [0, 1, 2, 5] ++ sceneLinePayload)

/-- A valid V6 stream: header and two empty blocks (8-byte headers with
`blockLength` 0). -/
def c4valid : List Nat :=
  rm.headerV6Bytes ++ [0, 0, 0, 0, 0, 1, 2, 0] ++ [0, 0, 0, 0, 0, 1, 2, 0]

/-- Eight bytes declaring a block of `2^32 − 1` payload bytes with
nothing after the header. -/
def c5input : List Nat := [255, 255, 255, 255, 0, 1, 2, 5]

/-- A line-item payload whose points subblock declares 15 bytes —
not a multiple of the 14-byte version-2 point size. -/
def c6payload : List Nat :=
  [20] ++ le4 0 ++ [36] ++ le4 0 ++ [56] ++ le8 0 ++ [68] ++ le4 0 ++
  [92] ++ le4 15 ++ List.replicate 15 7

/-- A version-1 24-byte point whose speed field is the `float32`
`65536.0` (bit pattern `0x47800000`) and whose width field is `1.0`. -/
def c7point : List Nat :=
  le4 0 ++ le4 0 ++ le4 0x47800000 ++ le4 0 ++ le4 0x3F800000 ++ le4 0

/-- A 57-byte stream for the simplified stroke scanner: 17 junk bytes
(the leading `0xFF` tool word fails validation), then a well-formed
stroke record (tool 1, color 1, width `1.0`, one point at
`(100.0, 100.0)`). -/
def c1input : List Nat :=
  [255, 255, 255, 255] ++ List.replicate 12 0 ++ [0] ++
  (le4 1 ++ le4 1 ++ le4 0x3F800000 ++ le4 1 ++
   le4 0x42C80000 ++ le4 0x42C80000 ++ le4 0 ++ le4 0 ++ le4 0 ++ le4 0)

/-- 43 bytes whose first 33 match the `rmHeader` text and whose last 10
are `X` (88), so the whole differs from every 43-byte dialect header. -/
def c3input : List Nat := rmconvert.rmHeaderBytes ++ List.replicate 10 88

/-- Byte encoding of a line-item payload: the five mandatory tagged
fields (tool, color, thickness, starting length, points subblock
header), then the raw points bytes. -/
def lineItemBytes (tool color thick start pointsLen : Nat)
    (ptBytes : List Nat) : List Nat :=
  [20] ++ le4 tool ++ [36] ++ le4 color ++ [56] ++ le8 thick ++
  [68] ++ le4 start ++ [92] ++ le4 pointsLen ++ ptBytes

/-- The standard base-128 little-endian-group varint encoding (7 payload
bits per byte, continuation bit on every byte but the last). -/
def varintEncode (n : Nat) : List Nat :=
  if h : n < 128 then [n] else (n % 128 + 128) :: varintEncode (n / 128)
termination_by n
decreasing_by exact Nat.div_lt_self (by omega) (by norm_num)

/-! Facts about the byte primitives. -/

theorem readFull_ok {n : Nat} {r bs r' : List Nat}
    (h : readFull n r = .ok (bs, r')) :
    bs = r.take n ∧ r' = r.drop n ∧ n ≤ r.length := by
  unfold readFull at h
  split at h
  · split at h <;> cases h
  · cases h
    refine ⟨rfl, rfl, by omega⟩

theorem readFull_of_le {n : Nat} {r : List Nat} (h : n ≤ r.length) :
    readFull n r = .ok (r.take n, r.drop n) := by
  unfold readFull
  rw [if_neg (by omega)]

theorem readFull_append {n : Nat} {r bs r' junk : List Nat}
    (h : readFull n r = .ok (bs, r')) :
    readFull n (r ++ junk) = .ok (bs, r' ++ junk) := by
  obtain ⟨hbs, hr, hn⟩ := readFull_ok h
  subst hbs hr
  rw [readFull_of_le (by simp; omega), List.take_append_of_le_length hn,
    List.drop_append_of_le_length hn]

theorem readU8_ok {r : List Nat} {v : Nat} {r' : List Nat}
    (h : readU8 r = .ok (v, r')) :
    v = leNat (r.take 1) ∧ r' = r.drop 1 ∧ 1 ≤ r.length := by
  unfold readU8 at h
  split at h
  · cases h
  next heq =>
    cases h
    obtain ⟨hbs, hr, hn⟩ := readFull_ok heq
    exact ⟨by rw [hbs], hr, hn⟩

theorem readU16_ok {r : List Nat} {v : Nat} {r' : List Nat}
    (h : readU16 r = .ok (v, r')) :
    v = leNat (r.take 2) ∧ r' = r.drop 2 ∧ 2 ≤ r.length := by
  unfold readU16 at h
  split at h
  · cases h
  next heq =>
    cases h
    obtain ⟨hbs, hr, hn⟩ := readFull_ok heq
    exact ⟨by rw [hbs], hr, hn⟩

theorem readU32_ok {r : List Nat} {v : Nat} {r' : List Nat}
    (h : readU32 r = .ok (v, r')) :
    v = leNat (r.take 4) ∧ r' = r.drop 4 ∧ 4 ≤ r.length := by
  unfold readU32 at h
  split at h
  · cases h
  next heq =>
    cases h
    obtain ⟨hbs, hr, hn⟩ := readFull_ok heq
    exact ⟨by rw [hbs], hr, hn⟩

theorem readU64_ok {r : List Nat} {v : Nat} {r' : List Nat}
    (h : readU64 r = .ok (v, r')) :
    v = leNat (r.take 8) ∧ r' = r.drop 8 ∧ 8 ≤ r.length := by
  unfold readU64 at h
  split at h
  · cases h
  next heq =>
    cases h
    obtain ⟨hbs, hr, hn⟩ := readFull_ok heq
    exact ⟨by rw [hbs], hr, hn⟩

theorem readU8_append {r : List Nat} {v : Nat} {r' junk : List Nat}
    (h : readU8 r = .ok (v, r')) :
    readU8 (r ++ junk) = .ok (v, r' ++ junk) := by
  unfold readU8 at h ⊢
  split at h
  · cases h
  next heq =>
    cases h
    rw [readFull_append heq]

theorem readU32_append {r : List Nat} {v : Nat} {r' junk : List Nat}
    (h : readU32 r = .ok (v, r')) :
    readU32 (r ++ junk) = .ok (v, r' ++ junk) := by
  unfold readU32 at h ⊢
  split at h
  · cases h
  next heq =>
    cases h
    rw [readFull_append heq]

namespace rm

/-! Locality of the tag/id readers: a successful read is unaffected by
extra bytes appended after the buffer. -/

theorem readVarintAux_append {res sh : Nat} {r : List Nat} {v : Nat}
    {rest junk : List Nat}
    (h : readVarintAux res sh r = .ok (v, rest)) :
    readVarintAux res sh (r ++ junk) = .ok (v, rest ++ junk) := by
  induction r generalizing res sh with
  | nil => cases h
  | cons b tl ih =>
    simp only [readVarintAux, List.cons_append] at h ⊢
    by_cases hb : b &&& 128 = 0
    · rw [if_pos hb] at h ⊢
      cases h
      rfl
    · rw [if_neg hb] at h ⊢
      by_cases hs : 64 ≤ sh + 7
      · rw [if_pos hs] at h
        cases h
      · rw [if_neg hs] at h ⊢
        exact ih h

theorem readVarint_append {r : List Nat} {v : Nat} {rest junk : List Nat}
    (h : readVarint r = .ok (v, rest)) :
    readVarint (r ++ junk) = .ok (v, rest ++ junk) :=
  readVarintAux_append h

theorem expectTag_append {i t : Nat} {r : List Nat} {b : Bool} {rest junk : List Nat}
    (h : expectTag i t r = .ok (b, rest)) :
    expectTag i t (r ++ junk) = .ok (b, rest ++ junk) := by
  unfold expectTag at h
  split at h
  · cases h
  next tv r1 heq =>
    simp only [expectTag, readVarint_append heq]
    by_cases hm : tv >>> 4 ≠ i ∨ tv &&& 15 ≠ t
    · rw [if_pos hm] at h
      cases h
    · rw [if_neg hm] at h ⊢
      cases h
      rfl

theorem readCrdtId_append {r : List Nat} {cid : V6CrdtId} {rest junk : List Nat}
    (h : readCrdtId r = .ok (cid, rest)) :
    readCrdtId (r ++ junk) = .ok (cid, rest ++ junk) := by
  unfold readCrdtId at h ⊢
  split at h
  · cases h
  next p1 r1 heq =>
    rw [readU8_append heq]
    split at h
    · cases h
    next p2 r2 heq2 =>
      rw [readVarint_append heq2]
      cases h
      rfl

theorem readU32_append_of_ok {r : List Nat} {v : Nat} {rest junk : List Nat}
    (h : readU32 r = .ok (v, rest)) :
    readU32 (r ++ junk) = .ok (v, rest ++ junk) :=
  readU32_append h

theorem sceneItemPreamble_append {r : List Nat} {d : Nat} {rest junk : List Nat}
    (h : sceneItemPreamble r = .ok (d, rest)) :
    sceneItemPreamble (r ++ junk) = .ok (d, rest ++ junk) := by
  unfold sceneItemPreamble at h
  split at h
  · cases h
  next h1 =>
  split at h
  · cases h
  next h2 =>
  split at h
  · cases h
  next h3 =>
  split at h
  · cases h
  next h4 =>
  split at h
  · cases h
  next h5 =>
  split at h
  · cases h
  next h6 =>
  split at h
  · cases h
  next h7 =>
  split at h
  · cases h
  next h8 =>
  split at h
  · cases h
  next h9 =>
  split at h
  · cases h
  next h10 =>
  cases h
  simp only [sceneItemPreamble, expectTag_append h1, readCrdtId_append h2,
    expectTag_append h3, readCrdtId_append h4, expectTag_append h5,
    readCrdtId_append h6, expectTag_append h7, readCrdtId_append h8,
    expectTag_append h9, readU32_append h10]

end rm

/-! Round-trip facts about the little-endian encoders. -/

theorem leNat_le4 {v : Nat} (h : v < 2 ^ 32) : leNat (le4 v) = v := by
  simp only [leNat, le4, List.foldr]
  omega

theorem leNat_le8 {v : Nat} (h : v < 2 ^ 64) : leNat (le8 v) = v := by
  simp only [leNat, le8, List.foldr]
  omega

theorem readU32_le4 {v : Nat} (h : v < 2 ^ 32) (rest : List Nat) :
    readU32 (le4 v ++ rest) = .ok (v, rest) := by
  have h4 : (4 : Nat) ≤ (le4 v ++ rest).length := by simp [le4]
  simp only [readU32, readFull_of_le h4]
  rw [show (4 : Nat) = (le4 v).length from rfl, List.take_left, List.drop_left,
    leNat_le4 h]

theorem readU64_le8 {v : Nat} (h : v < 2 ^ 64) (rest : List Nat) :
    readU64 (le8 v ++ rest) = .ok (v, rest) := by
  have h8 : (8 : Nat) ≤ (le8 v ++ rest).length := by simp [le8]
  simp only [readU64, readFull_of_le h8]
  rw [show (8 : Nat) = (le8 v).length from rfl, List.take_left, List.drop_left,
    leNat_le8 h]

/-- C9: a V6 scene item whose deleted-length field is positive is a
tombstone: whatever bytes follow the preamble, `parseSceneItemBlock`
returns no line and no error. -/
theorem c9_tombstone_zero_strokes (data junk : List Nat) (v d : Nat)
    (rest : List Nat) (h : rm.sceneItemPreamble data = .ok (d, rest))
    (hd : 0 < d) :
    rm.parseSceneItemBlock (data ++ junk) v = .ok none := by
  simp only [rm.parseSceneItemBlock, rm.sceneItemPreamble_append h, if_pos hd]

/-- C9 witness: the concrete preamble `c9pre` has deleted-length 1, and
with arbitrary junk appended the scene item parses to no line, no
error. -/
theorem c9_tombstone_zero_strokes_witness :
    rm.sceneItemPreamble c9pre = .ok (1, []) ∧
    rm.parseSceneItemBlock (c9pre ++ [222, 173]) 2 = .ok none :=
  ⟨by decide, c9_tombstone_zero_strokes c9pre [222, 173] 2 1 [] (by decide) (by decide)⟩

theorem parsePoint_ne_one {version : Nat} (hv : version ≠ 1) (r : List Nat) :
    rm.parsePoint r version = rm.parsePoint r 2 := by
  simp [rm.parsePoint, hv]

theorem pointsLoop_ne_one {version : Nat} (hv : version ≠ 1) (n : Nat) (r : List Nat) :
    rm.pointsLoop version n r = rm.pointsLoop 2 n r := by
  induction n generalizing r with
  | zero => rfl
  | succ k ih =>
    simp only [rm.pointsLoop, parsePoint_ne_one hv, ih]

/-- C10: any block version other than 1 (including 0 and values above 2)
selects the 14-byte version-2 point layout: line parsing behaves exactly
as for version 2. -/
theorem c10_non_one_version_parses_as_v2 (version : Nat) (r : List Nat)
    (hv : version ≠ 1) :
    rm.parseLineData r version = rm.parseLineData r 2 := by
  unfold rm.parseLineData
  simp [rm.parseLineDataA, hv, pointsLoop_ne_one hv]

/-- C10 witness: version 3 behaves as version 2 on a concrete buffer. -/
theorem c10_non_one_version_parses_as_v2_witness :
    rm.parseLineData c6payload 3 = rm.parseLineData c6payload 2 :=
  c10_non_one_version_parses_as_v2 3 c6payload (by decide)

/-- C2 (amended): a SceneItem block whose payload fails to parse is
silently dropped by `extractLinesFromV6Blocks`; the remaining blocks
still contribute their lines and no error is surfaced. -/
theorem c2_failing_scene_item_skipped (pre post : List rm.V6Block)
    (b : rm.V6Block) (hb : b.blockType = rm.BLOCK_SCENE_ITEM)
    (hfail : exceptIsOk (rm.parseSceneItemBlock b.data b.currentVersion) = false) :
    rm.extractLinesFromV6Blocks (pre ++ b :: post) =
      rm.extractLinesFromV6Blocks (pre ++ post) := by
  unfold rm.extractLinesFromV6Blocks
  rw [List.filterMap_append, List.filterMap_append, List.filterMap_cons]
  have hnone : (if b.blockType = rm.BLOCK_SCENE_ITEM then
      match rm.parseSceneItemBlock b.data b.currentVersion with
      | .ok (some line) => some line
      | _ => none
    else none) = none := by
    rw [if_pos hb]
    cases hparse : rm.parseSceneItemBlock b.data b.currentVersion with
    | error e => rfl
    | ok v =>
      rw [hparse] at hfail
      cases hfail
  rw [hnone]

/-- C2 witness: the 1-byte payload `[255]` is structurally corrupt (its
leading tag varint runs out of bytes), and a scene-item block carrying
it contributes nothing while extraction continues. -/
theorem c2_failing_scene_item_skipped_witness :
    exceptIsOk (rm.parseSceneItemBlock [255] 2) = false ∧
    rm.extractLinesFromV6Blocks
        [{ blockType := 5, minVersion := 1, currentVersion := 2, size := 1,
           data := [255] }] = rm.extractLinesFromV6Blocks [] :=
  ⟨by decide,
   c2_failing_scene_item_skipped [] []
     { blockType := 5, minVersion := 1, currentVersion := 2, size := 1, data := [255] }
     (by decide) (by decide)⟩

set_option maxRecDepth 1000000 in
/-- C2 counterexample: `c2input` contains a SceneItem block whose
payload is structurally corrupt, yet `ParseV6` returns a successful
document built from the remaining valid SceneItem block — the error is
not returned to the caller. -/
theorem c2_counterexample :
    exceptIsOk (rm.parseSceneItemBlock [255] 2) = false ∧
    (rm.ParseV6 c2input).toOption.map
      (fun d => d.layers.map fun l => l.lines.length) = some [1] := by
  decide

/-- C5 (amended): `parseV6Block` performs the `make([]byte, blockLength)`
allocation for any positive declared length before any check against the
remaining bytes: with an 8-byte buffer holding only the block header, the
allocation of `n` bytes happens and the subsequent payload read, having
nothing left to consume, returns a bare `io.EOF` — which the enclosing
block loop treats as a clean end of stream. -/
theorem c5_allocation_before_check (n mv cv bt : Nat) (h32 : n < 2 ^ 32)
    (h0 : 0 < n) :
    (rm.parseV6BlockA (le4 n ++ [0, mv, cv, bt])).2 = [n] ∧
    (rm.parseV6BlockA (le4 n ++ [0, mv, cv, bt])).1 = .error .eof := by
  simp [rm.parseV6BlockA, readU32_le4 h32, readU8, readFull, leNat, h0, h0.ne.symm]

/-- C5 witness: a declared block length of `2^32 − 1` on an 8-byte input
triggers a `4294967295`-byte allocation. -/
theorem c5_allocation_before_check_witness :
    (rm.parseV6BlockA (le4 4294967295 ++ [0, 9, 9, 9])).2 = [4294967295] ∧
    (rm.parseV6BlockA (le4 4294967295 ++ [0, 9, 9, 9])).1 = .error .eof :=
  c5_allocation_before_check 4294967295 9 9 9 (by decide) (by decide)

set_option maxRecDepth 1000000 in
/-- C5 counterexample: the 8-byte input `c5input` declares a block
length of `2^32 − 1`; the decoder performs the allocation of that size
(the instrumented allocation trace records it) even though zero payload
bytes remain — no remaining-bytes check precedes the allocation.  The
payload read then returns a bare `EOF`, which the block loop swallows as
a clean end of stream: the whole V6 decode of a header followed by
`c5input` succeeds. -/
theorem c5_counterexample :
    (rm.parseV6BlockA c5input).2 = [4294967295] ∧ c5input.length = 8 ∧
    (rm.parseV6BlockA c5input).1 = .error .eof ∧
    exceptIsOk (rm.ParseV6 (rm.headerV6Bytes ++ c5input)) = true := by
  decide

/-- C6 counterexample: a points subblock declaring 15 bytes (remainder 1
modulo the 14-byte version-2 point size) parses successfully to the
quotient's single point instead of failing. -/
theorem c6_counterexample :
    (rm.parseLineData c6payload 2).toOption.map (fun pr => pr.1.points.length) =
      some 1 ∧ 15 % 14 = 1 := by
  decide

namespace rm

theorem parseV6BlockA_consumes {r : List Nat} {b : V6Block} {r' allocs : List Nat}
    (h : parseV6BlockA r = (.ok (b, r'), allocs)) : r'.length < r.length := by
  unfold parseV6BlockA at h
  split at h
  next => simp at h
  next v1 r1 h1 =>
  split at h
  next => simp at h
  next v2 r2 h2 =>
  split at h
  next => simp at h
  next v3 r3 h3 =>
  split at h
  next => simp at h
  next v4 r4 h4 =>
  split at h
  next => simp at h
  next v5 r5 h5 =>
  have e1 : r1.length = r.length - 4 := by rw [(readU32_ok h1).2.1, List.length_drop]
  have d1 : 4 ≤ r.length := (readU32_ok h1).2.2
  have e2 : r2.length = r1.length - 1 := by rw [(readU8_ok h2).2.1, List.length_drop]
  have d2 : 1 ≤ r1.length := (readU8_ok h2).2.2
  have e3 : r3.length = r2.length - 1 := by rw [(readU8_ok h3).2.1, List.length_drop]
  have d3 : 1 ≤ r2.length := (readU8_ok h3).2.2
  have e4 : r4.length = r3.length - 1 := by rw [(readU8_ok h4).2.1, List.length_drop]
  have d4 : 1 ≤ r3.length := (readU8_ok h4).2.2
  have e5 : r5.length = r4.length - 1 := by rw [(readU8_ok h5).2.1, List.length_drop]
  have d5 : 1 ≤ r4.length := (readU8_ok h5).2.2
  split at h
  · split at h
    next => simp at h
    next bs r6 h6 =>
      simp only [Prod.mk.injEq, Except.ok.injEq] at h
      obtain ⟨⟨-, hr⟩, -⟩ := h
      subst hr
      have e6 : r6.length = r5.length - v1 := by rw [(readFull_ok h6).2.1, List.length_drop]
      omega
  · simp only [Prod.mk.injEq, Except.ok.injEq] at h
    obtain ⟨⟨-, hr⟩, -⟩ := h
    subst hr
    omega

theorem parseV6Block_consumes {r : List Nat} {b : V6Block} {r' : List Nat}
    (h : parseV6Block r = .ok (b, r')) : r'.length < r.length := by
  have hA : parseV6BlockA r = ((parseV6BlockA r).1, (parseV6BlockA r).2) := rfl
  rw [show (parseV6BlockA r).1 = parseV6Block r from rfl, h] at hA
  exact parseV6BlockA_consumes hA

/-- The loop fuel `parseV6Blocks` supplies is enough: any fuel at least
the remaining length computes the same result, because every parsed
block strictly shrinks the remainder. -/
theorem parseV6BlocksLoop_fuel : ∀ (fuel : Nat) (acc : List V6Block) (r : List Nat),
    r.length ≤ fuel →
    parseV6BlocksLoop fuel acc r = parseV6BlocksLoop r.length acc r := by
  intro fuel
  induction fuel using Nat.strong_induction_on with
  | _ fuel ih =>
    intro acc r hle
    cases fuel with
    | zero =>
      have h0 : r.length = 0 := by omega
      rw [h0]
    | succ f =>
      cases hr : r.length with
      | zero =>
        simp only [parseV6BlocksLoop, hr, if_pos]
      | succ m =>
        have hne : r.length ≠ 0 := by omega
        simp only [parseV6BlocksLoop, if_neg hne]
        cases hb : parseV6Block r with
        | error e =>
          cases e <;> rfl
        | ok pr =>
          obtain ⟨b, r'⟩ := pr
          have hlt : r'.length < r.length := parseV6Block_consumes hb
          change parseV6BlocksLoop f (acc ++ [b]) r' =
            parseV6BlocksLoop m (acc ++ [b]) r'
          rw [ih f (by omega) (acc ++ [b]) r' (by omega),
            ih m (by omega) (acc ++ [b]) r' (by omega)]

end rm

/-- C4 (amended): a V6 stream truncated at a block boundary plus 4–7
bytes — that is, cut inside a block header at any field boundary after
the 4-byte length field — makes the block loop treat the bare `io.EOF`
as a clean end of stream and succeed with the blocks gathered so far,
instead of reporting corruption. -/
theorem c4_truncation_inside_header_succeeds (fuel : Nat)
    (acc : List rm.V6Block) (r : List Nat) (h4 : 4 ≤ r.length)
    (h7 : r.length ≤ 7) (hf : r.length ≤ fuel) :
    rm.parseV6BlocksLoop fuel acc r = .ok acc := by
  rcases r with - | ⟨b0, r⟩
  · simp only [List.length_nil] at h4; omega
  rcases r with - | ⟨b1, r⟩
  · simp only [List.length_cons, List.length_nil] at h4; omega
  rcases r with - | ⟨b2, r⟩
  · simp only [List.length_cons, List.length_nil] at h4; omega
  rcases r with - | ⟨b3, rest⟩
  · simp only [List.length_cons, List.length_nil] at h4; omega
  cases fuel with
  | zero => simp only [List.length_cons] at hf; omega
  | succ f =>
    rcases rest with - | ⟨c0, rest⟩
    · simp [rm.parseV6BlocksLoop, rm.parseV6Block, rm.parseV6BlockA, readU32,
        readU8, readFull, leNat, List.isEmpty]
    rcases rest with - | ⟨c1, rest⟩
    · simp [rm.parseV6BlocksLoop, rm.parseV6Block, rm.parseV6BlockA, readU32,
        readU8, readFull, leNat, List.isEmpty]
    rcases rest with - | ⟨c2, rest⟩
    · simp [rm.parseV6BlocksLoop, rm.parseV6Block, rm.parseV6BlockA, readU32,
        readU8, readFull, leNat, List.isEmpty]
    rcases rest with - | ⟨c3, rest⟩
    · simp [rm.parseV6BlocksLoop, rm.parseV6Block, rm.parseV6BlockA, readU32,
        readU8, readFull, leNat, List.isEmpty]
    · exfalso
      simp only [List.length_cons] at h7
      omega

/-- C4 witness: five leftover bytes (a truncated block header cut right
after its length field) end the block loop cleanly with the blocks
already gathered. -/
theorem c4_truncation_inside_header_succeeds_witness :
    rm.parseV6BlocksLoop 5 [] [9, 9, 9, 9, 7] = .ok [] :=
  c4_truncation_inside_header_succeeds 5 [] [9, 9, 9, 9, 7]
    (by decide) (by decide) (by decide)

set_option maxRecDepth 1000000 in
/-- C4 counterexample: `c4valid` (59 bytes) decodes successfully, and so
does its truncation to 55 bytes — a cut inside the second block's
header — contradicting the claim that every truncation before the
logical end yields an error. -/
theorem c4_counterexample :
    exceptIsOk (rm.ParseV6 c4valid) = true ∧ c4valid.length = 59 ∧
    exceptIsOk (rm.ParseV6 (c4valid.take 55)) = true := by
  decide

theorem readU32_of_le {r : List Nat} (h : 4 ≤ r.length) :
    readU32 r = .ok (leNat (r.take 4), r.drop 4) := by
  simp only [readU32, readFull_of_le h]

theorem readU16_of_le {r : List Nat} (h : 2 ≤ r.length) :
    readU16 r = .ok (leNat (r.take 2), r.drop 2) := by
  simp only [readU16, readFull_of_le h]

theorem readU8_of_le {r : List Nat} (h : 1 ≤ r.length) :
    readU8 r = .ok (leNat (r.take 1), r.drop 1) := by
  simp only [readU8, readFull_of_le h]

theorem readVarint_single {b : Nat} (hb : b < 128) (rest : List Nat) :
    rm.readVarint (b :: rest) = .ok (b, rest) := by
  have h1 : b &&& 128 = 0 := by
    have ht : b.testBit 7 = false := Nat.testBit_lt_two_pow (by omega)
    calc b &&& 128 = b &&& 2 ^ 7 := by norm_num
      _ = (b.testBit 7).toNat * 2 ^ 7 := Nat.and_two_pow b 7
      _ = 0 := by rw [ht]; rfl
  have h2 : b &&& 127 = b := by
    have hm := Nat.and_pow_two_sub_one_eq_mod b 7
    norm_num at hm
    rw [hm, Nat.mod_eq_of_lt hb]
  simp [rm.readVarint, rm.readVarintAux, h1, h2]
  omega

theorem expectTag_single {b i t : Nat} (hb : b < 128) (hi : b >>> 4 = i)
    (ht : b &&& 15 = t) (rest : List Nat) :
    rm.expectTag i t (b :: rest) = .ok (true, rest) := by
  simp [rm.expectTag, readVarint_single hb, hi, ht]

theorem parsePoint_v2_complete {r : List Nat} (h : 14 ≤ r.length) :
    ∃ p, rm.parsePoint r 2 = .ok (p, r.drop 14) := by
  have h2 : ¬((2 : Nat) = 1) := by decide
  have d1 := readU32_of_le (r := r) (by omega)
  have d2 := readU32_of_le (r := r.drop 4) (by simp; omega)
  have d3 := readU16_of_le (r := (r.drop 4).drop 4) (by simp; omega)
  have d4 := readU16_of_le (r := ((r.drop 4).drop 4).drop 2) (by simp; omega)
  have d5 := readU8_of_le (r := (((r.drop 4).drop 4).drop 2).drop 2) (by simp; omega)
  have d6 := readU8_of_le (r := ((((r.drop 4).drop 4).drop 2).drop 2).drop 1)
    (by simp; omega)
  simp only [rm.parsePoint, h2, if_false, d1, d2, d3, d4, d5, d6]
  have hd : (((((r.drop 4).drop 4).drop 2).drop 2).drop 1).drop 1 = r.drop 14 := by
    simp [List.drop_drop]
  rw [hd]
  exact ⟨_, rfl⟩

theorem pointsLoop_v2_complete : ∀ (n : Nat) (r : List Nat), 14 * n ≤ r.length →
    ∃ ps, rm.pointsLoop 2 n r = .ok (ps, r.drop (14 * n)) ∧ ps.length = n := by
  intro n
  induction n with
  | zero =>
    intro r _
    exact ⟨[], by simp [rm.pointsLoop], rfl⟩
  | succ k ih =>
    intro r hr
    obtain ⟨p, hp⟩ := parsePoint_v2_complete (r := r) (by omega)
    obtain ⟨ps, hps, hlen⟩ := ih (r.drop 14) (by simp; omega)
    refine ⟨p :: ps, ?_, by simp [hlen]⟩
    simp only [rm.pointsLoop, hp, hps, List.drop_drop]
    have harith : 14 + 14 * k = 14 * (k + 1) := by ring
    rw [harith]

/-- C6 (amended): for a version-2 line item the point count is the
declared subblock length integer-divided by 14; a non-zero remainder is
silently ignored — the parse succeeds with the quotient's worth of
points and the leftover bytes stay unconsumed; no error is raised. -/
theorem c6_remainder_silently_truncated (tool color thick start pointsLen : Nat)
    (ptBytes : List Nat) (htool : tool < 2 ^ 32) (hcolor : color < 2 ^ 32)
    (hthick : thick < 2 ^ 64) (hstart : start < 2 ^ 32)
    (hplen : pointsLen < 2 ^ 32)
    (hbytes : 14 * (pointsLen / 14) ≤ ptBytes.length) :
    ∃ line rest,
      rm.parseLineData (lineItemBytes tool color thick start pointsLen ptBytes) 2 =
        .ok (line, rest) ∧ line.points.length = pointsLen / 14 := by
  have ht20 := expectTag_single (b := 20) (i := 1) (t := rm.TAG_BYTE4)
    (by decide) (by decide) (by decide)
  have ht36 := expectTag_single (b := 36) (i := 2) (t := rm.TAG_BYTE4)
    (by decide) (by decide) (by decide)
  have ht56 := expectTag_single (b := 56) (i := 3) (t := rm.TAG_BYTE8)
    (by decide) (by decide) (by decide)
  have ht68 := expectTag_single (b := 68) (i := 4) (t := rm.TAG_BYTE4)
    (by decide) (by decide) (by decide)
  have ht92 := expectTag_single (b := 92) (i := 5) (t := rm.TAG_LENGTH4)
    (by decide) (by decide) (by decide)
  obtain ⟨ps, hps, hlen⟩ := pointsLoop_v2_complete (pointsLen / 14) ptBytes hbytes
  have main : rm.parseLineData (lineItemBytes tool color thick start pointsLen ptBytes) 2 =
      .ok ({ color := rm.toInt32 color, tool := rm.toInt32 tool, points := ps,
             thicknessScale := thick, startingLength := start },
           ptBytes.drop (14 * (pointsLen / 14))) := by
    unfold rm.parseLineData rm.parseLineDataA
    simp only [lineItemBytes, List.append_assoc, List.nil_append,
      List.singleton_append, List.cons_append,
      ht20, readU32_le4 htool, ht36, readU32_le4 hcolor, ht56,
      readU64_le8 hthick, ht68, readU32_le4 hstart, ht92, readU32_le4 hplen]
    norm_num
    simp only [hps]
  exact ⟨_, _, main, hlen⟩

/-- C6 witness: a declared length of 15 with 15 available bytes parses
to `15 / 14 = 1` point without error. -/
theorem c6_remainder_silently_truncated_witness :
    ∃ line rest,
      rm.parseLineData (lineItemBytes 0 0 0 0 15 (List.replicate 15 7)) 2 =
        .ok (line, rest) ∧ line.points.length = 15 / 14 :=
  c6_remainder_silently_truncated 0 0 0 0 15 (List.replicate 15 7)
    (by decide) (by decide) (by decide) (by decide) (by decide) (by decide)

theorem and128_eq_zero {b : Nat} (hb : b < 128) : b &&& 128 = 0 := by
  have ht : b.testBit 7 = false := Nat.testBit_lt_two_pow (by omega)
  calc b &&& 128 = b &&& 2 ^ 7 := by norm_num
    _ = (b.testBit 7).toNat * 2 ^ 7 := Nat.and_two_pow b 7
    _ = 0 := by rw [ht]; rfl

theorem and127_eq_self {b : Nat} (hb : b < 128) : b &&& 127 = b := by
  have hm := Nat.and_pow_two_sub_one_eq_mod b 7
  norm_num at hm
  rw [hm, Nat.mod_eq_of_lt hb]

theorem varint_or_split (x s : Nat) :
    ((x % 128) <<< s) ||| ((x / 128) <<< (s + 7)) = x <<< s := by
  have h128 : (128 : Nat) = 2 ^ 7 := by norm_num
  apply Nat.eq_of_testBit_eq
  intro i
  rw [h128, show x / 2 ^ 7 = x >>> 7 from (Nat.shiftRight_eq_div_pow x 7).symm]
  simp only [Nat.testBit_lor, Nat.testBit_shiftLeft, Nat.testBit_mod_two_pow,
    Nat.testBit_shiftRight]
  rcases Nat.lt_or_ge i s with hlt | hge
  · have e1 : ¬(s ≤ i) := by omega
    have e2 : ¬(s + 7 ≤ i) := by omega
    simp [e1, e2]
  · rcases Nat.lt_or_ge i (s + 7) with h2 | h2
    · have e1 : s ≤ i := hge
      have e2 : ¬(s + 7 ≤ i) := by omega
      have e3 : i - s < 7 := by omega
      simp [e1, e2, e3]
    · have e1 : s ≤ i := hge
      have e2 : s + 7 ≤ i := h2
      have e3 : ¬(i - s < 7) := by omega
      simp [e1, e2, e3]
      congr 1
      omega

theorem shiftLeft_lt_two_pow_64 {x s : Nat} (hx : x < 2 ^ (63 - s)) (hs : s ≤ 63) :
    x <<< s < 2 ^ 64 := by
  rw [Nat.shiftLeft_eq]
  calc x * 2 ^ s < 2 ^ (63 - s) * 2 ^ s :=
        (Nat.mul_lt_mul_right (by positivity)).mpr hx
    _ = 2 ^ 63 := by rw [← pow_add]; congr 1; omega
    _ < 2 ^ 64 := by norm_num

theorem readVarintAux_roundTrip :
    ∀ (n res shift : Nat) (rest : List Nat), shift ≤ 63 → n < 2 ^ (63 - shift) →
    rm.readVarintAux res shift (varintEncode n ++ rest) =
      .ok (res ||| (n <<< shift), rest) := by
  intro n
  induction n using Nat.strong_induction_on with
  | _ n ih =>
    intro res shift rest hs hn
    by_cases h : n < 128
    · rw [varintEncode, dif_pos h]
      simp only [List.singleton_append, rm.readVarintAux]
      rw [and128_eq_zero h, and127_eq_self h, if_pos rfl,
        Nat.mod_eq_of_lt (shiftLeft_lt_two_pow_64 (by omega) hs)]
      simp
    · have h7 : 7 < 63 - shift := by
        by_contra hc
        push_neg at hc
        have hle := Nat.pow_le_pow_right (show 0 < 2 by norm_num) hc
        norm_num at hle
        omega
      have hb256 : n % 128 + 128 < 256 := by omega
      have hbdiv : (n % 128 + 128) / 2 ^ 7 = 1 := by
        have hp : (2 : Nat) ^ 7 = 128 := by norm_num
        omega
      have htb : (n % 128 + 128).testBit 7 = true := by
        simp [Nat.testBit_to_div_mod, hbdiv]
      have hband : (n % 128 + 128) &&& 128 ≠ 0 := by
        have hcalc : (n % 128 + 128) &&& 128 = 128 := by
          calc (n % 128 + 128) &&& 128 = (n % 128 + 128) &&& 2 ^ 7 := by norm_num
            _ = ((n % 128 + 128).testBit 7).toNat * 2 ^ 7 :=
                Nat.and_two_pow (n % 128 + 128) 7
            _ = 128 := by rw [htb]; rfl
        rw [hcalc]
        norm_num
      have hb127 : (n % 128 + 128) &&& 127 = n % 128 := by
        have hm := Nat.and_pow_two_sub_one_eq_mod (n % 128 + 128) 7
        norm_num at hm
        omega
      have hd : n / 128 < 2 ^ (63 - (shift + 7)) := by
        rw [Nat.div_lt_iff_lt_mul (by norm_num : (0 : Nat) < 128)]
        calc n < 2 ^ (63 - shift) := hn
          _ = 2 ^ (63 - (shift + 7)) * 128 := by
            rw [show (128 : Nat) = 2 ^ 7 by norm_num, ← pow_add]
            congr 1
            omega
      rw [varintEncode, dif_neg h]
      simp only [List.cons_append, List.append_eq, rm.readVarintAux]
      rw [if_neg hband, if_neg (by omega : ¬64 ≤ shift + 7), hb127,
        Nat.mod_eq_of_lt (shiftLeft_lt_two_pow_64
          (x := n % 128) (by omega) (by omega)),
        ih (n / 128) (Nat.div_lt_self (by omega) (by norm_num))
          (res ||| (n % 128) <<< shift) (shift + 7) rest (by omega) hd,
        Nat.lor_assoc, varint_or_split]

/-- C8 (amended, round-trip half): decoding the standard varint encoding
of any value below `2^63` returns exactly that value and consumes
exactly the encoding. -/
theorem c8_varint_roundtrip (n : Nat) (rest : List Nat) (h : n < 2 ^ 63) :
    rm.readVarint (varintEncode n ++ rest) = .ok (n, rest) := by
  have hr := readVarintAux_roundTrip n 0 0 rest (by omega) (by simpa using h)
  simpa [rm.readVarint] using hr

/-- C8 witness: the two-byte encoding of 300 decodes back to 300,
leaving trailing bytes untouched. -/
theorem c8_varint_roundtrip_witness :
    rm.readVarint (varintEncode 300 ++ [9]) = .ok (300, [9]) :=
  c8_varint_roundtrip 300 [9] (by norm_num)

set_option maxRecDepth 10000 in
/-- C8 counterexample: the 10-byte standard encoding of `2^64` (65
significant bits, exceeding 64) is decoded without any error to the
silently truncated value 0; the overflow error fires only when a tenth
continuation byte is still followed by more (ten `0x80` bytes). -/
theorem c8_counterexample :
    rm.readVarint [128, 128, 128, 128, 128, 128, 128, 128, 128, 2] = .ok (0, []) ∧
    varintEncode (2 ^ 64) = [128, 128, 128, 128, 128, 128, 128, 128, 128, 2] ∧
    rm.readVarint (List.replicate 10 128) = .error (.errMsg "varint overflow") := by
  refine ⟨by decide, ?_, by decide⟩
  simp [varintEncode]

theorem bitlenAux_zero (fuel : Nat) : bitlenAux fuel 0 = 0 := by
  cases fuel <;> simp [bitlenAux]

theorem bitlenAux_bounds : ∀ (fuel n : Nat), 0 < n → n ≤ fuel →
    2 ^ (bitlenAux fuel n - 1) ≤ n ∧ n < 2 ^ bitlenAux fuel n := by
  intro fuel
  induction fuel with
  | zero => intro n h0 hf; omega
  | succ f ih =>
    intro n h0 hf
    simp only [bitlenAux]
    rw [if_neg (by omega)]
    by_cases hn2 : n / 2 = 0
    · have hn1 : n = 1 := by omega
      subst hn1
      rw [show (1 : Nat) / 2 = 0 from rfl, bitlenAux_zero]
      norm_num
    · have hrec := ih (n / 2) (by omega) (by omega)
      have hb1 : 1 ≤ bitlenAux f (n / 2) := by
        rcases Nat.eq_zero_or_pos (bitlenAux f (n / 2)) with hz | hpos
        · rw [hz] at hrec
          norm_num at hrec
          omega
        · exact hpos
      obtain ⟨hlo, hhi⟩ := hrec
      have e2 : (2 : Nat) ^ (bitlenAux f (n / 2) + 1) = 2 ^ bitlenAux f (n / 2) * 2 :=
        pow_succ 2 _
      have e3 : (2 : Nat) ^ bitlenAux f (n / 2) = 2 ^ (bitlenAux f (n / 2) - 1) * 2 := by
        rw [← pow_succ]
        congr 1
        omega
      simp only [Nat.add_sub_cancel]
      omega

theorem bitlen_bounds {n : Nat} (h : 0 < n) :
    2 ^ (bitlen n - 1) ≤ n ∧ n < 2 ^ bitlen n :=
  bitlenAux_bounds n n h le_rfl

theorem rne_intCast (k : ℤ) : rne (k : ℚ) = k := by
  unfold rne
  rw [Int.floor_intCast]
  norm_num

theorem ratLog2_natCast {m : Nat} (h0 : 0 < m) :
    ratLog2 (m : ℚ) = (bitlen m : ℤ) - 1 := by
  have hden : ((m : ℚ)).den = 1 := Rat.den_natCast m
  have hnum : ((m : ℚ)).num = (m : ℤ) := Rat.num_natCast m
  obtain ⟨hlo, hhi⟩ := bitlen_bounds h0
  have hL1 : 1 ≤ bitlen m := by
    by_contra hc
    push_neg at hc
    have hz : bitlen m = 0 := by omega
    rw [hz] at hhi
    norm_num at hhi
    omega
  have hb1 : bitlen 1 = 1 := by decide
  have hcond : pow2LE ((bitlen m : ℤ) - 1) (m : ℚ) = true := by
    unfold pow2LE
    rw [if_pos (by omega : (0 : ℤ) ≤ (bitlen m : ℤ) - 1), hnum, hden]
    have ht : ((bitlen m : ℤ) - 1).toNat = bitlen m - 1 := by omega
    rw [ht]
    simp only [decide_eq_true_eq, Nat.cast_one, one_mul]
    exact_mod_cast hlo
  simp only [ratLog2, hnum, hden, Int.toNat_natCast, hb1, Nat.cast_one, hcond,
    if_true]

theorem roundF32_natCast {m : Nat} (h24 : m < 2 ^ 24) :
    roundF32 (m : ℚ) = .finite m := by
  rcases Nat.eq_zero_or_pos m with h0 | h0
  · subst h0
    simp [roundF32]
  have hq0 : ((m : ℚ)) ≠ 0 := by positivity
  have habs : |(m : ℚ)| = (m : ℚ) := abs_of_nonneg (by positivity)
  obtain ⟨hlo, hhi⟩ := bitlen_bounds h0
  have hL1 : 1 ≤ bitlen m := by
    by_contra hc
    push_neg at hc
    have hz : bitlen m = 0 := by omega
    rw [hz] at hhi
    norm_num at hhi
    omega
  have hL24 : bitlen m ≤ 24 := by
    by_contra hc
    push_neg at hc
    have : (2 : Nat) ^ 24 ≤ 2 ^ (bitlen m - 1) :=
      Nat.pow_le_pow_right (by norm_num) (by omega)
    omega
  have hlog : ratLog2 (m : ℚ) = (bitlen m : ℤ) - 1 := ratLog2_natCast h0
  have hmax : max (ratLog2 (m : ℚ)) (-126) = (bitlen m : ℤ) - 1 := by
    rw [hlog]
    omega
  simp only [roundF32, hq0, if_false, habs, hmax]
  have hexp : (23 : ℤ) - ((bitlen m : ℤ) - 1) = ((24 - bitlen m : ℕ) : ℤ) := by omega
  have hzpow : (2 : ℚ) ^ ((23 : ℤ) - ((bitlen m : ℤ) - 1)) =
      ((2 ^ (24 - bitlen m) : ℕ) : ℚ) := by
    rw [hexp, zpow_natCast]
    push_cast
    try ring
  have hmul : (m : ℚ) * (2 : ℚ) ^ ((23 : ℤ) - ((bitlen m : ℤ) - 1)) =
      ((m * 2 ^ (24 - bitlen m) : ℕ) : ℚ) := by
    rw [hzpow]
    push_cast
    try ring
  have hrne : rne ((m : ℚ) * (2 : ℚ) ^ ((23 : ℤ) - ((bitlen m : ℤ) - 1))) =
      ((m * 2 ^ (24 - bitlen m) : ℕ) : ℤ) := by
    rw [hmul, show (((m * 2 ^ (24 - bitlen m) : ℕ) : ℚ)) =
      (((m * 2 ^ (24 - bitlen m) : ℕ) : ℤ) : ℚ) by push_cast; try ring]
    exact rne_intCast _
  rw [hrne]
  have hzpow2 : (2 : ℚ) ^ ((bitlen m : ℤ) - 1 - 23) =
      (((2 ^ (24 - bitlen m) : ℕ) : ℚ))⁻¹ := by
    rw [show (bitlen m : ℤ) - 1 - 23 = -((24 - bitlen m : ℕ) : ℤ) by omega,
      zpow_neg, zpow_natCast]
    push_cast
    try ring_nf
  have hv : ((((m * 2 ^ (24 - bitlen m) : ℕ) : ℤ) : ℚ)) *
      (2 : ℚ) ^ ((bitlen m : ℤ) - 1 - 23) = (m : ℚ) := by
    rw [hzpow2]
    push_cast
    have hne : ((2 : ℚ) ^ (24 - bitlen m)) ≠ 0 := by positivity
    field_simp
    try ring
  rw [hv]
  have hvlt : (m : ℚ) < (2 : ℚ) ^ (128 : ℕ) := by
    calc (m : ℚ) < ((2 ^ 24 : ℕ) : ℚ) := by exact_mod_cast h24
      _ ≤ (2 : ℚ) ^ (128 : ℕ) := by push_cast; norm_num
  rw [if_pos hvlt, if_neg (not_lt.mpr (by positivity))]

theorem f32ToUint16_natCast (k : Nat) : f32ToUint16 (.finite (k : ℚ)) = k % 65536 := by
  simp only [f32ToUint16, truncQ]
  rw [if_pos (by positivity : (0 : ℚ) ≤ (k : ℚ)), Int.floor_natCast]
  omega

theorem readU32_le4_nil {v : Nat} (h : v < 2 ^ 32) :
    readU32 (le4 v) = .ok (v, []) := by
  have hr := readU32_le4 h []
  simpa using hr

/-- C7 (amended): for version-1 points, speed and width are multiplied
by 4 in `float32` arithmetic and converted to `uint16` by truncation,
wrapping modulo `2^16` — they are not clamped.  For integer-valued speed
`n` and width `m` below `2^22` the parsed fields are exactly
`4n mod 2^16` and `4m mod 2^16`. -/
theorem c7_v1_requantization_wraps (xb yb sb db wb pb n m : Nat)
    (hx : xb < 2 ^ 32) (hy : yb < 2 ^ 32) (hs : sb < 2 ^ 32)
    (hd : db < 2 ^ 32) (hw : wb < 2 ^ 32) (hp : pb < 2 ^ 32)
    (hsv : bitsToF32 sb = .finite (n : ℚ))
    (hwv : bitsToF32 wb = .finite (m : ℚ))
    (hn : n < 2 ^ 22) (hm : m < 2 ^ 22) :
    (rm.parsePoint
        (le4 xb ++ (le4 yb ++ (le4 sb ++ (le4 db ++ (le4 wb ++ le4 pb))))) 1).toOption.map
      (fun pr => (pr.1.speed, pr.1.width)) =
      some (4 * n % 65536, 4 * m % 65536) := by
  simp only [rm.parsePoint, readU32_le4 hx, readU32_le4 hy, readU32_le4 hs,
    readU32_le4 hd, readU32_le4 hw, readU32_le4_nil hp, if_pos rfl, hsv, hwv]
  have hcn : ((n : ℚ) * 4) = ((4 * n : ℕ) : ℚ) := by push_cast; ring
  have hcm : ((m : ℚ) * 4) = ((4 * m : ℕ) : ℚ) := by push_cast; ring
  simp only [f32mul, hcn, hcm,
    roundF32_natCast (show 4 * n < 2 ^ 24 by omega),
    roundF32_natCast (show 4 * m < 2 ^ 24 by omega),
    f32ToUint16_natCast, Except.toOption, Option.map, if_true]

set_option maxRecDepth 1000000 in
/-- C7 witness: a version-1 point whose speed field is the `float32`
value 65536 and whose width field is 1 parses to speed
`4·65536 mod 2^16 = 0` and width 4. -/
theorem c7_v1_requantization_wraps_witness :
    (rm.parsePoint
        (le4 0 ++ (le4 0 ++ (le4 1199570944 ++ (le4 0 ++ (le4 1065353216 ++ le4 0))))) 1).toOption.map
      (fun pr => (pr.1.speed, pr.1.width)) =
      some (4 * 65536 % 65536, 4 * 1 % 65536) :=
  c7_v1_requantization_wraps 0 0 1199570944 0 1065353216 0 65536 1
    (by decide) (by decide) (by decide) (by decide) (by decide) (by decide)
    (by decide) (by decide) (by decide) (by decide)

set_option maxRecDepth 1000000 in
/-- C7 counterexample: the speed `float32` 65536.0 (bit pattern
`0x47800000`) would clamp to 65535, but the decoder produces 0 — the
`uint16` conversion wraps instead of clamping. -/
theorem c7_counterexample :
    (rm.parsePoint c7point 1).toOption.map (fun pr => pr.1.speed) = some 0 ∧
    bitsToF32 1199570944 = .finite 65536 ∧ (0 : Nat) ≠ 65535 := by
  decide

namespace rmconvert

theorem readFullP_spec {n : Nat} {r : BReader} {res : Except GoErr (List Nat)}
    {r' : BReader} (h : readFullP n r = (res, r')) :
    r'.data = r.data ∧ r.pos ≤ r'.pos := by
  unfold readFullP at h
  split at h
  · split at h
    · cases h
      exact ⟨rfl, le_rfl⟩
    · cases h
      refine ⟨rfl, ?_⟩
      show r.pos ≤ r.data.length
      simp only [BReader.len] at *
      omega
  · cases h
    exact ⟨rfl, by show r.pos ≤ r.pos + n; omega⟩

theorem readU32P_spec {r : BReader} {res : Except GoErr Nat} {r' : BReader}
    (h : readU32P r = (res, r')) : r'.data = r.data ∧ r.pos ≤ r'.pos := by
  unfold readU32P at h
  split at h
  next e r1 heq =>
    cases h
    exact readFullP_spec heq
  next bs r1 heq =>
    cases h
    exact readFullP_spec heq

theorem readU32P_ok_pos {r : BReader} {v : Nat} {r' : BReader}
    (h : readU32P r = (.ok v, r')) : r'.data = r.data ∧ r'.pos = r.pos + 4 := by
  unfold readU32P at h
  split at h
  next e r1 heq => cases h
  next bs r1 heq =>
    cases h
    unfold readFullP at heq
    split at heq
    · split at heq <;> cases heq
    · cases heq
      exact ⟨rfl, rfl⟩

theorem strokePointsLoop_spec : ∀ (i : Nat) (r : BReader) (acc : List Point),
    (strokePointsLoop i r acc).2.data = r.data ∧
    r.pos ≤ (strokePointsLoop i r acc).2.pos := by
  intro i
  induction i with
  | zero => intro r acc; exact ⟨rfl, le_rfl⟩
  | succ k ih =>
    intro r acc
    unfold strokePointsLoop
    split
    · exact ⟨rfl, le_rfl⟩
    split
    next r1 heq =>
      obtain ⟨hd1, hp1⟩ := readU32P_spec heq
      exact ⟨hd1, hp1⟩
    next xb r1 heq =>
      obtain ⟨hd1, hp1⟩ := readU32P_spec heq
      split
      next r2 heq2 =>
        obtain ⟨hd2, hp2⟩ := readU32P_spec heq2
        exact ⟨by show r2.data = r.data; rw [hd2, hd1],
          by show r.pos ≤ r2.pos; omega⟩
      next yb r2 heq2 =>
        obtain ⟨hd2, hp2⟩ := readU32P_spec heq2
        split
        next r3 heq3 =>
          obtain ⟨hd3, hp3⟩ := readU32P_spec heq3
          exact ⟨by show r3.data = r.data; rw [hd3, hd2, hd1],
            by show r.pos ≤ r3.pos; omega⟩
        next sb r3 heq3 =>
          obtain ⟨hd3, hp3⟩ := readU32P_spec heq3
          split
          next r4 heq4 =>
            obtain ⟨hd4, hp4⟩ := readU32P_spec heq4
            exact ⟨by show r4.data = r.data; rw [hd4, hd3, hd2, hd1],
              by show r.pos ≤ r4.pos; omega⟩
          next db r4 heq4 =>
            obtain ⟨hd4, hp4⟩ := readU32P_spec heq4
            split
            next r5 heq5 =>
              obtain ⟨hd5, hp5⟩ := readU32P_spec heq5
              exact ⟨by show r5.data = r.data; rw [hd5, hd4, hd3, hd2, hd1],
                by show r.pos ≤ r5.pos; omega⟩
            next wb r5 heq5 =>
              obtain ⟨hd5, hp5⟩ := readU32P_spec heq5
              split
              next r6 heq6 =>
                obtain ⟨hd6, hp6⟩ := readU32P_spec heq6
                exact ⟨by show r6.data = r.data; rw [hd6, hd5, hd4, hd3, hd2, hd1],
                  by show r.pos ≤ r6.pos; omega⟩
              next pb r6 heq6 =>
                obtain ⟨hd6, hp6⟩ := readU32P_spec heq6
                dsimp only
                obtain ⟨hd7, hp7⟩ := ih r6 _
                exact ⟨by rw [hd7, hd6, hd5, hd4, hd3, hd2, hd1], by omega⟩

theorem tryParseStroke_spec {r : BReader} {res : Except GoErr Stroke}
    {r' : BReader} (h : tryParseStroke r = (res, r')) :
    r'.data = r.data ∧ r.pos ≤ r'.pos := by
  unfold tryParseStroke at h
  split at h
  · cases h
    exact ⟨rfl, le_rfl⟩
  split at h
  next e r1 heq =>
    cases h
    exact readU32P_spec heq
  next tool r1 heq =>
    obtain ⟨hd1, hp1⟩ := readU32P_spec heq
    split at h
    next e r2 heq2 =>
      cases h
      obtain ⟨hd2, hp2⟩ := readU32P_spec heq2
      exact ⟨by rw [hd2, hd1], by omega⟩
    next color r2 heq2 =>
      obtain ⟨hd2, hp2⟩ := readU32P_spec heq2
      split at h
      next e r3 heq3 =>
        cases h
        obtain ⟨hd3, hp3⟩ := readU32P_spec heq3
        exact ⟨by rw [hd3, hd2, hd1], by omega⟩
      next wb r3 heq3 =>
        obtain ⟨hd3, hp3⟩ := readU32P_spec heq3
        split at h
        next e r4 heq4 =>
          cases h
          obtain ⟨hd4, hp4⟩ := readU32P_spec heq4
          exact ⟨by rw [hd4, hd3, hd2, hd1], by omega⟩
        next pc r4 heq4 =>
          obtain ⟨hd4, hp4⟩ := readU32P_spec heq4
          split at h
          · cases h
            exact ⟨by rw [hd4, hd3, hd2, hd1], by omega⟩
          · split at h
            next pts r5 heq5 =>
              cases h
              have hsp := strokePointsLoop_spec pc r4 []
              rw [heq5] at hsp
              dsimp only at hsp
              obtain ⟨hd5, hp5⟩ := hsp
              exact ⟨by rw [hd5, hd4, hd3, hd2, hd1], by omega⟩

theorem tryParseStroke_ok_pos {r : BReader} {s : Stroke} {r' : BReader}
    (h : tryParseStroke r = (.ok s, r')) : r.pos + 16 ≤ r'.pos := by
  unfold tryParseStroke at h
  split at h
  · cases h
  split at h
  next e r1 heq => cases h
  next tool r1 heq =>
    obtain ⟨hd1, hp1⟩ := readU32P_ok_pos heq
    split at h
    next e r2 heq2 => cases h
    next color r2 heq2 =>
      obtain ⟨hd2, hp2⟩ := readU32P_ok_pos heq2
      split at h
      next e r3 heq3 => cases h
      next wb r3 heq3 =>
        obtain ⟨hd3, hp3⟩ := readU32P_ok_pos heq3
        split at h
        next e r4 heq4 => cases h
        next pc r4 heq4 =>
          obtain ⟨hd4, hp4⟩ := readU32P_ok_pos heq4
          split at h
          · cases h
          · split at h
            next pts r5 heq5 =>
              cases h
              have hsp := strokePointsLoop_spec pc r4 []
              rw [heq5] at hsp
              dsimp only at hsp
              obtain ⟨-, hp5⟩ := hsp
              omega

end rmconvert

namespace rmconvert

/-- The scanning-loop fuel `parseStrokeData` supplies is enough: any
fuel at least the remaining length computes the same strokes, because
every iteration strictly advances the reader position. -/
theorem strokeLoop_fuel : ∀ (fuel : Nat) (r : BReader) (acc : List Stroke),
    r.len ≤ fuel → strokeLoop fuel r acc = strokeLoopN r acc := by
  intro fuel
  induction fuel using Nat.strong_induction_on with
  | _ fuel ih =>
    intro r acc hle
    cases fuel with
    | zero =>
      have h0 : r.len = 0 := by omega
      unfold strokeLoopN
      rw [h0]
    | succ f =>
      unfold strokeLoopN
      cases hr : r.len with
      | zero =>
        simp [strokeLoop, hr]
      | succ m =>
        have hne : ¬(r.len = 0) := by omega
        simp only [strokeLoop]
        rw [if_neg hne, if_neg hne]
        cases ht : tryParseStroke r with
        | mk res r1 =>
          obtain ⟨hd1, hp1⟩ := tryParseStroke_spec ht
          cases res with
          | error e =>
            dsimp only
            have hlen : ({ r1 with pos := r1.pos + 1 } : BReader).len ≤ m := by
              show r1.data.length - (r1.pos + 1) ≤ m
              have hr0 : r.data.length - r.pos = m + 1 := hr
              rw [hd1]
              omega
            rw [ih f (by omega) _ acc (by omega),
              ih m (by omega) _ acc hlen]
          | ok s =>
            dsimp only
            have hp16 := tryParseStroke_ok_pos ht
            have hlen : r1.len ≤ m := by
              show r1.data.length - r1.pos ≤ m
              have hr0 : r.data.length - r.pos = m + 1 := hr
              rw [hd1]
              omega
            rw [ih f (by omega) _ _ (by omega), ih m (by omega) _ _ hlen]

end rmconvert

/-- C1 (amended): when a structural stroke-parse attempt fails, the
scanner does not abort the stream: it advances one byte past the
position where the failed attempt left the reader and retries from
there, so strokes may be assembled from bytes at or after a failed
position. -/
theorem c1_failed_parse_skips_byte_and_retries (data : List Nat) (p q : Nat)
    (e : GoErr) (acc : List rmconvert.Stroke) (hp : p < data.length)
    (h : rmconvert.tryParseStroke ⟨data, p⟩ = (.error e, ⟨data, q⟩)) :
    rmconvert.strokeLoopN ⟨data, p⟩ acc = rmconvert.strokeLoopN ⟨data, q + 1⟩ acc := by
  have hmono := rmconvert.tryParseStroke_spec h
  dsimp only at hmono
  obtain ⟨-, hpq⟩ := hmono
  unfold rmconvert.strokeLoopN
  have hlen : (⟨data, p⟩ : rmconvert.BReader).len = (data.length - p - 1) + 1 := by
    show data.length - p = _
    omega
  rw [hlen]
  simp only [rmconvert.strokeLoop]
  rw [if_neg (by show ¬(data.length - p = 0); omega), h]
  dsimp only
  exact rmconvert.strokeLoop_fuel _ _ acc (by show data.length - (q + 1) ≤ _; omega)

set_option maxRecDepth 1000000 in
/-- C1 witness: on `c1input` the attempt at position 0 fails (leaving
the reader at position 16), and the scan from position 0 equals the scan
restarted at position 17 — one byte past where the failed attempt
stopped. -/
theorem c1_failed_parse_skips_byte_and_retries_witness :
    rmconvert.tryParseStroke ⟨c1input, 0⟩ =
      (.error (.errMsg "invalid stroke parameters"), ⟨c1input, 16⟩) ∧
    rmconvert.strokeLoopN ⟨c1input, 0⟩ [] = rmconvert.strokeLoopN ⟨c1input, 17⟩ [] :=
  ⟨by decide,
   c1_failed_parse_skips_byte_and_retries c1input 0 16
     (.errMsg "invalid stroke parameters") [] (by decide) (by decide)⟩

set_option maxRecDepth 1000000 in
/-- C1 counterexample: on `c1input` the structural parse attempt at
position 0 fails, yet the returned strokes are not empty — the single
returned stroke is assembled from bytes 17–56, all at or after the
failed position, contradicting the whole-stream-abort claim. -/
theorem c1_counterexample :
    exceptIsOk (rmconvert.tryParseStroke ⟨c1input, 0⟩).1 = false ∧
    (rmconvert.parseStrokeData c1input).map (fun s => s.points.length) = [1] := by
  decide

/-- C3 (amended): `ParseV6` accepts only an exact 43-byte V6 header;
but `ParseRM` accepts any input of at least 43 bytes whose first 33
bytes equal the (unpadded) `rmHeader` text, ignoring bytes 33–42
entirely — a partial (prefix) header match is accepted. -/
theorem c3_parserm_accepts_prefix_match (data : List Nat)
    (hne : data.take 43 ≠ rm.headerV6Bytes) :
    ((exceptIsOk (rmconvert.ParseRM data) = true) ↔
      (43 ≤ data.length ∧ data.take 33 = rmconvert.rmHeaderBytes)) ∧
    exceptIsOk (rm.ParseV6 data) = false := by
  constructor
  · unfold rmconvert.ParseRM
    simp only [rmconvert.rmHeaderSize]
    by_cases hlen : 43 ≤ data.length
    · have hff : rmconvert.readFullP 43 ⟨data, 0⟩ =
          (.ok ((data.drop 0).take 43), { data := data, pos := 0 + 43 }) := by
        unfold rmconvert.readFullP
        rw [if_neg (by show ¬(data.length - 0 < 43); omega)]
      rw [hff]
      dsimp only
      rw [List.drop_zero, List.take_take, show min 33 43 = 33 by norm_num]
      split
      next hyes => simp [exceptIsOk, hlen, hyes]
      next hno => simp [exceptIsOk, hno]
    · unfold rmconvert.readFullP
      rw [if_pos (by show data.length - 0 < 43; omega)]
      split
      next e r heq => simp [exceptIsOk, hlen]
      next bs r heq =>
        exfalso
        split at heq <;> cases heq
  · unfold rm.ParseV6
    simp only [rm.HeaderLen]
    by_cases hl : data.length < 43
    · rw [if_pos hl]
      rfl
    · rw [if_neg hl, if_pos hne]
      rfl

/-- C3 witness: the 43-byte input `c3input` differs from the exact V6
header, yet `ParseRM` accepts it because its first 33 bytes match, while
`ParseV6` rejects it. -/
theorem c3_parserm_accepts_prefix_match_witness :
    c3input.take 43 ≠ rm.headerV6Bytes ∧
    ((exceptIsOk (rmconvert.ParseRM c3input) = true) ↔
      (43 ≤ c3input.length ∧ c3input.take 33 = rmconvert.rmHeaderBytes)) ∧
    exceptIsOk (rm.ParseV6 c3input) = false :=
  ⟨by decide, (c3_parserm_accepts_prefix_match c3input (by decide)).1,
   (c3_parserm_accepts_prefix_match c3input (by decide)).2⟩

set_option maxRecDepth 1000000 in
/-- C3 counterexample: `c3input` (43 bytes: the 33-byte header text plus
ten `X` bytes) matches none of the three 43-byte dialect header
literals, yet `ParseRM` decodes it successfully — a partial header match
is accepted instead of an `UnsupportedFormat` failure. -/
theorem c3_counterexample :
    exceptIsOk (rmconvert.ParseRM c3input) = true ∧ c3input.length = 43 ∧
    c3input.take 43 ≠ rm.headerV6Bytes ∧ c3input.take 43 ≠ rm.headerV3Bytes ∧
    c3input.take 43 ≠ rm.headerV5Bytes := by
  decide
